import Mathlib

/-!
# libosmium: Area, its rings, and the streaming XML reader

A shallow embedding of `include/osmium/osm/area.hpp` (classes `OuterRing`,
`InnerRing` and `Area`) together with a model of the streaming XML parser that
`test/osm-testdata/testdata-xml.cpp` drives.

Machine integers are mathematical integers that are reduced explicitly to the
width of their C++ type wherever the source computes with them.
-/

namespace osmium

/-! ## Machine integers -/

/-- Reduction of an integer to the range of `int64_t` (two's complement). -/
def to_int64 (x : Int) : Int := (x + 2 ^ 63) % 2 ^ 64 - 2 ^ 63

/-- Reduction of an integer to the range of `int` (32-bit two's complement). -/
def to_int32 (x : Int) : Int := (x + 2 ^ 31) % 2 ^ 32 - 2 ^ 31

/-- Reduction of an integer to the range of `size_t` (64-bit unsigned). -/
def to_size_t (x : Int) : Nat := (x % 2 ^ 64).toNat

/-- Modelled from the spec: `osmium::object_id_type` is declared in
`osmium/osm/types.hpp`, which is not part of the sources at hand; identifiers
are signed 64-bit integers. -/
def is_object_id (id : Int) : Prop := -(2 ^ 63) ≤ id ∧ id < 2 ^ 63

instance (id : Int) : Decidable (is_object_id id) := by
  unfold is_object_id; infer_instance

/-! ## Item types and sub-records -/

/-- Modelled from the spec: the enumeration `osmium::item_type` is declared in
`osmium/osm/item_type.hpp`, which is not part of the sources at hand. The
constructors are the record kinds the specification names: the five entity
kinds, the tag list, and the two ring kinds. -/
inductive item_type where
  | node
  | way
  | relation
  | area
  | changeset
  | tag_list
  | outer_ring
  | inner_ring
deriving DecidableEq, Repr

/-- Modelled from the spec: a record (`osmium::memory::Item`, declared in
`osmium/memory/item.hpp`) as far as a pass over sub-records sees it: the
type tag and the byte length
held in its header. -/
structure Item where
  type : item_type
  byte_size : Nat
deriving DecidableEq, Repr

/-! ## Area -/

/-- The class `Area`: the identifier inherited from `Object` and the sequence
of sub-records that `cbegin()` .. `cend()` iterates over. -/
structure Area where
  id : Int
  subitems : List Item
deriving DecidableEq, Repr

/-- Modelled from the spec: `Object::positive_id()` is declared in
`osmium/osm/object.hpp`, which is not part of the sources at hand; it is the
absolute value of the identifier, as an unsigned 64-bit integer (for the
least 64-bit value this is `2 ^ 63`, also what the conversion of the
unchanged bit pattern gives). -/
def Area.positive_id (a : Area) : Nat := a.id.natAbs % 2 ^ 64

/-- The method `Area::from_way`: `(positive_id() & 0x1) == 0`. -/
def Area.from_way (a : Area) : Bool := (a.positive_id &&& 0x1) == 0

/-- The method `Area::orig_id`: `id() / 2` in `int64_t` arithmetic (C++ division
truncates toward zero). -/
def Area.orig_id (a : Area) : Int := to_int64 (Int.tdiv a.id 2)

/-- The operator `++` on an `int` counter. -/
def incr (c : Int) : Int := to_int32 (c + 1)

/-- The body of the loop in `Area::num_rings`: the `switch` on `it->type()`. -/
def num_rings_step (counter : Int × Int) (it : Item) : Int × Int :=
  match it.type with
  | item_type.outer_ring => (incr counter.1, counter.2)
  | item_type.inner_ring => (counter.1, incr counter.2)
  | _ => counter

/-- The method `Area::num_rings`: one pass over the sub-records, starting from the
value-initialised pair `(0, 0)`. -/
def Area.num_rings (a : Area) : Int × Int :=
  a.subitems.foldl num_rings_step (0, 0)

/-- Number of sub-records of a sequence that carry the given type tag. -/
def count_type (t : item_type) (xs : List Item) : Nat :=
  (xs.filter (fun it => it.type == t)).length

/-- Whether a sub-record is a ring (outer or inner). -/
def Item.is_ring (it : Item) : Bool :=
  it.type == item_type.outer_ring || it.type == item_type.inner_ring

/-- Modelled from the spec: an Area is itself a record, and the byte length in a
record header is a 32-bit value (`osmium::memory::item_size_type`, declared in
`osmium/memory/item.hpp`, which is not part of the sources at hand). So the byte
lengths of the sub-records of an Area, each at least the four bytes of its own
length field, add up to less than `2 ^ 32`. -/
def Area.fits_record (a : Area) : Prop :=
  (∀ it ∈ a.subitems, 4 ≤ it.byte_size) ∧ (a.subitems.map Item.byte_size).sum < 2 ^ 32

instance (a : Area) : Decidable a.fits_record := by
  unfold Area.fits_record; infer_instance

/-! ## Rings -/

/-- Modelled from the spec: the sizes that the compiler fixes for the classes
involved and the alignment unit `osmium::memory::align_bytes`; their
declarations are not part of the sources at hand. The two alignment facts are the
`static_assert`s of `area.hpp`; every `sizeof` is positive. -/
structure Layout where
  align_bytes : Nat
  sizeof_Item : Nat
  sizeof_OuterRing : Nat
  sizeof_InnerRing : Nat
  sizeof_NodeRef : Nat
  align_pos : 0 < align_bytes
  item_pos : 0 < sizeof_Item
  node_ref_pos : 0 < sizeof_NodeRef
  outer_ring_aligned : sizeof_OuterRing % align_bytes = 0
  inner_ring_aligned : sizeof_InnerRing % align_bytes = 0

/-- A layout with the sizes of a common 64-bit platform. -/
def Layout.lp64 : Layout :=
  { align_bytes := 8, sizeof_Item := 8, sizeof_OuterRing := 8, sizeof_InnerRing := 8,
    sizeof_NodeRef := 16, align_pos := by decide, item_pos := by decide,
    node_ref_pos := by decide, outer_ring_aligned := by decide,
    inner_ring_aligned := by decide }

/-- Modelled from the spec: `osmium::NodeRef` is declared in
`osmium/osm/node_ref.hpp`, which is not part of the sources at hand; a fixed-size
element made of an identifier and an optional coordinate. -/
structure NodeRef where
  ref : Int
  location : Option (Int × Int)
deriving DecidableEq, Repr

/-- The class `OuterRing`: the byte length stored in the record header
(`byte_size()`) and the memory that follows the header, read as an array of
`NodeRef` starting at `begin()`. -/
structure OuterRing where
  byte_size : Nat
  data : List NodeRef
deriving DecidableEq, Repr

/-- The class `InnerRing`, laid out like `OuterRing`. -/
structure InnerRing where
  byte_size : Nat
  data : List NodeRef
deriving DecidableEq, Repr

/-- The assertion of `OuterRing::size`:
`(byte_size() - sizeof(OuterRing)) % sizeof(NodeRef) == 0`, in `size_t` arithmetic. -/
def OuterRing.size_assertion (L : Layout) (r : OuterRing) : Bool :=
  to_size_t ((r.byte_size : Int) - L.sizeof_OuterRing) % L.sizeof_NodeRef == 0

/-- The method `OuterRing::size`: `(byte_size() - sizeof(OuterRing)) / sizeof(NodeRef)`
in `size_t` arithmetic; `none` when the assertion fails (assertions enabled). -/
def OuterRing.size (L : Layout) (r : OuterRing) : Option Nat :=
  if r.size_assertion L then
    some (to_size_t ((r.byte_size : Int) - L.sizeof_OuterRing) / L.sizeof_NodeRef)
  else none

/-- The method `OuterRing::operator[]`: the `n`-th `NodeRef` counted from `begin()`;
`none` when there is no such element in the memory of the ring. -/
def OuterRing.get (r : OuterRing) (n : Nat) : Option NodeRef := r.data.get? n

/-- The assertion of `InnerRing::size`. -/
def InnerRing.size_assertion (L : Layout) (r : InnerRing) : Bool :=
  to_size_t ((r.byte_size : Int) - L.sizeof_InnerRing) % L.sizeof_NodeRef == 0

/-- The method `InnerRing::size`. -/
def InnerRing.size (L : Layout) (r : InnerRing) : Option Nat :=
  if r.size_assertion L then
    some (to_size_t ((r.byte_size : Int) - L.sizeof_InnerRing) / L.sizeof_NodeRef)
  else none

/-- The method `InnerRing::operator[]`. -/
def InnerRing.get (r : InnerRing) (n : Nat) : Option NodeRef := r.data.get? n

/-- The constructor `OuterRing()`: a collection with no element, whose byte
length is the size of its header. -/
def OuterRing.empty (L : Layout) : OuterRing :=
  { byte_size := L.sizeof_OuterRing, data := [] }

/-- Modelled from the spec: the builder operation `add_node_ref`, which lives in
the builder classes that are not part of the sources at hand. It writes one
`NodeRef` behind the elements already there and adds `sizeof(NodeRef)` to the
byte length of the ring. -/
def OuterRing.add_node_ref (L : Layout) (r : OuterRing) (x : NodeRef) : OuterRing :=
  { byte_size := r.byte_size + L.sizeof_NodeRef, data := r.data ++ [x] }

/-- The ring obtained by appending a sequence of `NodeRef`s, in order, to an
empty `OuterRing`. -/
def OuterRing.build (L : Layout) (xs : List NodeRef) : OuterRing :=
  xs.foldl (OuterRing.add_node_ref L) (OuterRing.empty L)

/-- The constructor `InnerRing()`: a collection with no element, whose byte
length is the size of its header. -/
def InnerRing.empty (L : Layout) : InnerRing :=
  { byte_size := L.sizeof_InnerRing, data := [] }

/-- Modelled from the spec: the builder operation `add_node_ref` on an inner
ring, which lives in the builder classes that are not part of the sources at
hand; as on an outer ring. -/
def InnerRing.add_node_ref (L : Layout) (r : InnerRing) (x : NodeRef) : InnerRing :=
  { byte_size := r.byte_size + L.sizeof_NodeRef, data := r.data ++ [x] }

/-- The ring obtained by appending a sequence of `NodeRef`s, in order, to an
empty `InnerRing`. -/
def InnerRing.build (L : Layout) (xs : List NodeRef) : InnerRing :=
  xs.foldl (InnerRing.add_node_ref L) (InnerRing.empty L)

/-! ## Arena (Buffer) -/

/-- Modelled from the spec: a top-level record of an Arena as a typed view shows
it, the classes `Item` and `Object` being declared in files that are not part of
the sources at hand: the type tag and the byte length held in its header, and the
identifier that the payload of an Object-like record carries. -/
structure Record where
  type : item_type
  byte_size : Nat
  id : Int
deriving DecidableEq, Repr

/-- Modelled from the spec: padding of a length to the next multiple of the
alignment unit (`osmium/memory/item.hpp` is not part of the sources at hand). -/
def padded_length (L : Layout) (n : Nat) : Nat :=
  (n + L.align_bytes - 1) / L.align_bytes * L.align_bytes

/-- Modelled from the spec: the Arena (`osmium::memory::Buffer`, declared in
`osmium/memory/buffer.hpp`, which is not part of the sources at hand): the
records appended so far in memory order, the capacity, the append cursor and the
committed length, all three in bytes. -/
structure Arena where
  capacity : Nat
  written : Nat
  committed : Nat
  records : List Record
deriving DecidableEq, Repr

/-- Modelled from the spec: a fresh Arena of the given capacity; the
sentinel that ends a stream is the Arena of capacity zero. -/
def Arena.empty (capacity : Nat) : Arena :=
  { capacity := capacity, written := 0, committed := 0, records := [] }

/-- Modelled from the spec: `append_item(tag, payload_bytes)` appends header and
payload, padded to the alignment unit, at the cursor; the Arena grows when the
record does not fit. -/
def Arena.append_item (L : Layout) (a : Arena) (tag : item_type) (id : Int)
    (payload_bytes : Nat) : Arena :=
  let size := padded_length L (L.sizeof_Item + payload_bytes)
  { capacity := max a.capacity (a.written + size)
    written := a.written + size
    committed := a.committed
    records := a.records ++ [{ type := tag, byte_size := size, id := id }] }

/-- Modelled from the spec: `commit()` advances the committed length to the cursor. -/
def Arena.commit (a : Arena) : Arena :=
  { a with committed := a.written }

/-- The records that lie entirely within the first `n` bytes. -/
def records_within : Nat → List Record → List Record
  | _, [] => []
  | n, r :: rs => if r.byte_size ≤ n then r :: records_within (n - r.byte_size) rs else []

/-- Modelled from the spec: `rollback()` discards the bytes behind the committed
length. -/
def Arena.rollback (a : Arena) : Arena :=
  { a with written := a.committed, records := records_within a.committed a.records }

/-- Modelled from the spec: iteration over the committed region, record by
record, each step advancing by the declared length of the record. -/
def Arena.items (a : Arena) : List Record := records_within a.committed a.records

/-- Modelled from the spec: the operations that change an Arena. -/
inductive ArenaOp where
  | append_item (tag : item_type) (id : Int) (payload_bytes : Nat)
  | commit
  | rollback
deriving DecidableEq, Repr

/-- One operation applied to an Arena. -/
def Arena.apply (L : Layout) (a : Arena) : ArenaOp → Arena
  | ArenaOp.append_item tag id payload_bytes => a.append_item L tag id payload_bytes
  | ArenaOp.commit => a.commit
  | ArenaOp.rollback => a.rollback

/-- The Arena reached from an empty Arena of the given capacity by a sequence of
operations, applied in order. -/
def Arena.after (L : Layout) (capacity : Nat) (ops : List ArenaOp) : Arena :=
  ops.foldl (Arena.apply L) (Arena.empty capacity)

/-! ## Header and errors -/

/-- Modelled from the spec: the Header (`osmium::io::Header`, declared in a file
that is not part of the sources at hand): an ordered mapping from key to value
and the declared format version. -/
structure Header where
  options : List (String × String)
  version : String
deriving DecidableEq, Repr

/-- Modelled from the spec: `Header::get`, the value stored under a key, the
empty string when there is none. -/
def Header.get (h : Header) (key : String) : String :=
  (h.options.lookup key).getD ""

/-- Modelled from the spec: the two errors that end a parse, named as the tests
name them: `format_version_error` with its `version` field and `xml_error` with
its `line` and `column` fields. -/
inductive ParseError where
  | format_version_error (version : String)
  | xml_error (line column : Nat)
deriving DecidableEq, Repr

/-! ## The markup tokenizer (external collaborator) -/

/-- Modelled from the spec: what the incremental markup tokenizer reports to the
parser: the start of an element with its attributes in document order, and
the end of an element. -/
inductive Event where
  | start_element (name : String) (attrs : List (String × String))
  | end_element (name : String)
deriving DecidableEq, Repr

/-- Modelled from the spec: the interface of the incremental markup tokenizer.
It is fed the input one character at a time, answers with the events completed
by that character or rejects the character as malformed (`none`), and says at
the end of the input whether it stopped at a place where input may end. -/
structure Tokenizer where
  σ : Type
  init : σ
  feed : σ → Char → Option (σ × List Event)
  finish : σ → Bool

/-- A position in the input: 1-based line, 0-based column. -/
structure Position where
  line : Nat
  column : Nat
deriving DecidableEq, Repr

/-- The position of the first character of the input. -/
def Position.first : Position := { line := 1, column := 0 }

/-- The position after a character: a line feed starts the next line. -/
def Position.advance (p : Position) (c : Char) : Position :=
  if c.toNat = 10 then { line := p.line + 1, column := 0 }
  else { line := p.line, column := p.column + 1 }

/-- Modelled from the spec: what the parser receives while it consumes the
input: the events of the tokenizer with the position at which each was
completed, malformed markup with the offending position, and the end of the
input with the position reached. -/
inductive Token where
  | start_element (line column : Nat) (name : String) (attrs : List (String × String))
  | end_element (line column : Nat) (name : String)
  | malformed (line column : Nat)
  | end_of_input (line column : Nat)
deriving DecidableEq, Repr

/-- An event together with the position at which the tokenizer reported it. -/
def Event.token (pos : Position) : Event → Token
  | Event.start_element name attrs => Token.start_element pos.line pos.column name attrs
  | Event.end_element name => Token.end_element pos.line pos.column name

/-- Modelled from the spec: feeding the characters of the input to the
tokenizer in order, tracking the position; nothing follows malformed markup. -/
def tokenize_from (T : Tokenizer) : T.σ → Position → List Char → List Token
  | s, pos, [] =>
    if T.finish s then [Token.end_of_input pos.line pos.column]
    else [Token.malformed pos.line pos.column]
  | s, pos, c :: cs =>
    match T.feed s c with
    | none => [Token.malformed pos.line pos.column]
    | some (s1, events) =>
      events.map (Event.token pos) ++ tokenize_from T s1 (pos.advance c) cs

/-- The tokens of a whole input text. -/
def tokenize (T : Tokenizer) (text : List Char) : List Token :=
  tokenize_from T T.init Position.first text

/-- Modelled from the spec: the input channel: chunks are taken in order up to
the first empty chunk, which is the end-of-input sentinel; `none` when the
channel holds no sentinel (the parser would wait for more input). -/
def read_input : List String → Option (List Char)
  | [] => none
  | chunk :: rest =>
    if chunk.data = [] then some []
    else (read_input rest).map (fun text => chunk.data ++ text)

/-- The root element of a text: the first thing the tokenizer reports, when
that is the start of an element. -/
def root_element (T : Tokenizer) (text : List Char) :
    Option (String × List (String × String)) :=
  match tokenize T text with
  | Token.start_element _ _ name attrs :: _ => some (name, attrs)
  | _ => none

/-! ## Identifiers as text -/

/-- The number written by a sequence of decimal digits. -/
def digits_value (cs : List Char) : Nat :=
  cs.foldl (fun n c => 10 * n + (c.toNat - 48)) 0

/-- Modelled from the spec: the conversion of the text of an `id` attribute to an
identifier (it is declared with the identifier type in `osmium/osm/types.hpp`,
which is not part of the sources at hand): the integer written in decimal at
the start of the text, an optional minus sign and the digits that follow, as a
signed 64-bit value. -/
def decimal_id (text : String) : Int :=
  to_int64
    (match text.data with
    | [] => 0
    | c :: cs =>
      if c.toNat = 45 then -(digits_value (cs.takeWhile Char.isDigit) : Int)
      else (digits_value ((c :: cs).takeWhile Char.isDigit) : Int))

/-- The character of a decimal digit. -/
def digit_char (d : Nat) : Char := Char.ofNat (48 + d)

/-- The decimal digits of a number, least significant first; the first argument
bounds the number of digits. -/
def digits_rev : Nat → Nat → List Char
  | 0, _ => []
  | fuel + 1, n =>
    if n < 10 then [digit_char n] else digit_char (n % 10) :: digits_rev fuel (n / 10)

/-- The decimal digits of a number, most significant first. -/
def decimal_digits (n : Nat) : List Char := (digits_rev (n + 1) n).reverse

/-- The decimal numeral of an integer, as it stands in a document: a minus sign
for a negative number, then the digits of its absolute value. -/
def decimal_text (n : Int) : String :=
  if n < 0 then String.mk (Char.ofNat 45 :: decimal_digits n.natAbs)
  else String.mk (decimal_digits n.natAbs)

/-! ## The streaming parser -/

/-- Modelled from the spec: an entity element while it is assembled: its
kind, the attributes of its element and its sub-elements in document order. -/
structure Entity where
  type : item_type
  attrs : List (String × String)
  children : List (String × List (String × String))
deriving DecidableEq, Repr

/-- Modelled from the spec: the entity kind an element name stands for. -/
def entity_type (name : String) : Option item_type :=
  if name = "node" then some item_type.node
  else if name = "way" then some item_type.way
  else if name = "relation" then some item_type.relation
  else if name = "area" then some item_type.area
  else if name = "changeset" then some item_type.changeset
  else none

/-- Modelled from the spec: what the parser is started with: the layout of
records, the accepted values of the version attribute, the entity-type filter,
the capacity of a fresh Arena, the committed size from which an Arena is handed
on, and the length of the payload the Builder makes of an entity. -/
structure Config where
  layout : Layout
  accepted_versions : List String
  read_types : item_type → Bool
  buffer_capacity : Nat
  flush_threshold : Nat
  payload_bytes : Entity → Nat

/-- Modelled from the spec: the states of the parser,
`Idle → ReadingHeader → ReadingBody → Done`, and the terminal error state with
the error raised. -/
inductive State where
  | idle
  | reading_header
  | reading_body
  | done
  | error (e : ParseError)
deriving DecidableEq, Repr

/-- Modelled from the spec: what a run of the parser does to the outside: a write
to the one-shot Header cell, or a Buffer pushed to the output channel. -/
inductive Effect where
  | set_header (h : Header)
  | push (b : Arena)
deriving DecidableEq, Repr

/-- Modelled from the spec: the parser (`osmium::io::detail::XMLParser`, declared
in `osmium/io/xml_input.hpp`, which is not part of the sources at hand): its
state, the nesting context (the number of open elements: 1 inside the document
root, 2 inside a child of the root, more inside sub-elements), the entity under
construction, the header collected, the Arena in progress, and the effects so
far, oldest first. -/
structure XMLParser where
  state : State
  depth : Nat
  entity : Option Entity
  header : Header
  buffer : Arena
  effects : List Effect
deriving DecidableEq, Repr

/-- The parser before any input. -/
def XMLParser.init (cfg : Config) : XMLParser :=
  { state := State.idle, depth := 0, entity := none,
    header := { options := [], version := "" },
    buffer := Arena.empty cfg.buffer_capacity, effects := [] }

/-- Raising an error: the parse ends, nothing more happens on the channels. -/
def XMLParser.fail (p : XMLParser) (e : ParseError) : XMLParser :=
  { p with state := State.error e }

/-- Modelled from the spec: publication of the Header through the one-shot cell,
once: it happens in state `ReadingHeader` only and leaves that state. -/
def XMLParser.header_is_done (p : XMLParser) : XMLParser :=
  match p.state with
  | State.reading_header =>
    { p with state := State.reading_body, effects := p.effects ++ [Effect.set_header p.header] }
  | _ => p

/-- Modelled from the spec: the Arena in progress is pushed to the output channel
and a new one is started. -/
def XMLParser.flush (cfg : Config) (p : XMLParser) : XMLParser :=
  { p with effects := p.effects ++ [Effect.push p.buffer],
           buffer := Arena.empty cfg.buffer_capacity }

/-- Modelled from the spec: the document root is recognised: a version attribute
is required; absent, a version error with the empty string; present and not
accepted, a version error with the text found. -/
def XMLParser.start_root (cfg : Config) (p : XMLParser) (attrs : List (String × String)) :
    XMLParser :=
  match attrs.lookup "version" with
  | none => p.fail (ParseError.format_version_error "")
  | some v =>
    if v ∈ cfg.accepted_versions then
      { p with state := State.reading_header, depth := 1,
               header := { options := attrs, version := v } }
    else p.fail (ParseError.format_version_error v)

/-- Modelled from the spec: the start of an element. Outside any element it is the
document root (a second root is invalid structure); inside the root an entity
element ends the header, which is published, and opens an entity if the filter
accepts its kind; deeper, the element is a sub-element of what is open. -/
def XMLParser.start_element (cfg : Config) (p : XMLParser) (line column : Nat)
    (name : String) (attrs : List (String × String)) : XMLParser :=
  match p.depth with
  | 0 =>
    match p.state with
    | State.idle => p.start_root cfg attrs
    | _ => p.fail (ParseError.xml_error line column)
  | 1 =>
    match entity_type name with
    | some t =>
      { p.header_is_done with
          depth := 2,
          entity := if cfg.read_types t then
              some { type := t, attrs := attrs, children := [] }
            else none }
    | none => { p with depth := 2 }
  | d + 2 =>
    { p with depth := d + 3,
             entity := p.entity.map
               (fun e => { e with children := e.children ++ [(name, attrs)] }) }

/-- Modelled from the spec: a complete entity is appended to the Arena through
the Builder, with the identifier read from its `id` attribute; the close of the
Builder commits; an Arena that has reached the threshold is pushed and a new one
started. -/
def XMLParser.add_entity (cfg : Config) (p : XMLParser) (e : Entity) : XMLParser :=
  let b := (p.buffer.append_item cfg.layout e.type
    (decimal_id ((e.attrs.lookup "id").getD "")) (cfg.payload_bytes e)).commit
  let q := { p with buffer := b }
  if cfg.flush_threshold ≤ b.committed then q.flush cfg else q

/-- Modelled from the spec: the end of an element: of the root, of a child of the
root (a complete entity is added), or of a sub-element; with no element open it
is invalid structure. -/
def XMLParser.end_element (cfg : Config) (p : XMLParser) (line column : Nat) : XMLParser :=
  match p.depth with
  | 0 => p.fail (ParseError.xml_error line column)
  | 1 => { p with depth := 0 }
  | 2 =>
    match p.entity with
    | some e => { p.add_entity cfg e with depth := 1, entity := none }
    | none => { p with depth := 1 }
  | d + 3 => { p with depth := d + 2 }

/-- Modelled from the spec: the end of the input. With the document root closed:
the Header is published if it was not yet, a non-empty trailing Arena is pushed,
then one empty Arena as sentinel. Otherwise the markup is truncated: a markup
error at the position reached. -/
def XMLParser.end_of_input (cfg : Config) (p : XMLParser) (line column : Nat) : XMLParser :=
  match p.depth, p.state with
  | 0, State.reading_header | 0, State.reading_body =>
    let q := p.header_is_done
    let r := if 0 < q.buffer.committed then q.flush cfg else q
    { r with state := State.done, effects := r.effects ++ [Effect.push (Arena.empty 0)] }
  | _, _ => p.fail (ParseError.xml_error line column)

/-- One step of the parser: nothing happens after an error or after the end. -/
def XMLParser.handle (cfg : Config) (p : XMLParser) (t : Token) : XMLParser :=
  match p.state with
  | State.error _ => p
  | State.done => p
  | _ =>
    match t with
    | Token.start_element line column name attrs => p.start_element cfg line column name attrs
    | Token.end_element line column _ => p.end_element cfg line column
    | Token.malformed line column => p.fail (ParseError.xml_error line column)
    | Token.end_of_input line column => p.end_of_input cfg line column

/-- The parser run over a sequence of tokens. -/
def XMLParser.run (cfg : Config) (tokens : List Token) : XMLParser :=
  tokens.foldl (XMLParser.handle cfg) (XMLParser.init cfg)

/-- Modelled from the spec: a run of the parser on an input channel, with the
given tokenizer; `none` when the channel holds no end-of-input sentinel. -/
def XMLParser.parse (T : Tokenizer) (cfg : Config) (chunks : List String) :
    Option XMLParser :=
  (read_input chunks).map (fun text => XMLParser.run cfg (tokenize T text))

/-- The content of the one-shot Header cell after a run: the first write. -/
def header_cell : List Effect → Option Header
  | [] => none
  | Effect.set_header h :: _ => some h
  | Effect.push _ :: rest => header_cell rest

/-- The Buffers pushed to the output channel by a run, oldest first. -/
def pushed : List Effect → List Arena
  | [] => []
  | Effect.set_header _ :: rest => pushed rest
  | Effect.push b :: rest => b :: pushed rest

/-- The error a run ended with, if any. -/
def XMLParser.raised (p : XMLParser) : Option ParseError :=
  match p.state with
  | State.error e => some e
  | _ => none

/-- Whether an effect is a Buffer pushed to the output channel. -/
def Effect.is_push : Effect → Bool
  | Effect.push _ => true
  | Effect.set_header _ => false

/-- Whether an effect is a write to the Header cell. -/
def Effect.is_set_header : Effect → Bool
  | Effect.set_header _ => true
  | Effect.push _ => false

/-- Whether a sequence of effects is empty or one write to the Header cell
followed by pushes only. -/
def header_first : List Effect → Bool
  | [] => true
  | Effect.set_header _ :: rest => rest.all Effect.is_push
  | Effect.push _ :: _ => false

/-- What holds of the parser at every step of a run: the effects are a Header
write followed by pushes, if any; nothing has happened in the states `Idle` and
`ReadingHeader`, where no entity is open either; the Header is written in the
states `ReadingBody` and `Done`; every Buffer pushed before the end is non-empty,
and at the end the Buffers pushed are non-empty ones followed by the empty
sentinel. -/
def XMLParser.consistent (p : XMLParser) : Prop :=
  header_first p.effects = true ∧
  (p.state = State.idle → p.depth = 0) ∧
  (p.state = State.idle ∨ p.state = State.reading_header →
    p.effects = [] ∧ p.entity = none) ∧
  (p.state = State.reading_body ∨ p.state = State.done → p.effects ≠ []) ∧
  (p.state ≠ State.done → ∀ b ∈ pushed p.effects, 0 < b.committed) ∧
  (p.state = State.done →
    ∃ bs, pushed p.effects = bs ++ [Arena.empty 0] ∧ ∀ b ∈ bs, 0 < b.committed)

/-- The order the effects of a run are to have: at most one write to the Header
cell, and a write to the Header cell before every Buffer pushed. -/
def header_once_and_first (effs : List Effect) : Prop :=
  (effs.filter Effect.is_set_header).length ≤ 1 ∧
  ∀ pre b post, effs = pre ++ Effect.push b :: post → ∃ h, Effect.set_header h ∈ pre

/-- The shape the Buffers pushed by a successful run are to have: non-empty
Buffers, if any, then one empty Buffer, the last. -/
def buffers_then_sentinel (bs : List Arena) : Prop :=
  ∃ front sentinel, bs = front ++ [sentinel] ∧ (∀ b ∈ front, 0 < b.committed) ∧
    sentinel.committed = 0

/-- The sub-elements that start within a sequence of tokens, in order. -/
def sub_elements : List Token → List (String × List (String × String))
  | [] => []
  | Token.start_element _ _ name attrs :: rest => (name, attrs) :: sub_elements rest
  | Token.end_element _ _ _ :: rest => sub_elements rest
  | Token.malformed _ _ :: rest => sub_elements rest
  | Token.end_of_input _ _ :: rest => sub_elements rest

/-- The byte length of the record the Builder makes of an entity: header and
payload, padded. -/
def Config.record_size (cfg : Config) (e : Entity) : Nat :=
  padded_length cfg.layout (cfg.layout.sizeof_Item + cfg.payload_bytes e)

/-- The record the Builder makes of an entity. -/
def Config.record_of (cfg : Config) (e : Entity) : Record :=
  { type := e.type, byte_size := cfg.record_size e,
    id := decimal_id ((e.attrs.lookup "id").getD "") }

/-- The Arena after the Builder has appended an entity and committed. -/
def Config.add_record (cfg : Config) (b : Arena) (e : Entity) : Arena :=
  (b.append_item cfg.layout e.type (decimal_id ((e.attrs.lookup "id").getD ""))
    (cfg.payload_bytes e)).commit

/-- The parser inside the document root after the given entities have been
added, none of them reaching the threshold: the Header is published, the
entities are records of the Arena in progress. -/
def XMLParser.after_entities (cfg : Config) (p : XMLParser) : List Entity → XMLParser
  | [] => p
  | e :: es =>
    { state := State.reading_body, depth := 1, entity := none, header := p.header,
      buffer := (e :: es).foldl cfg.add_record p.buffer,
      effects := p.header_is_done.effects }

/-! ## A small tokenizer, for running the parser on concrete documents

The statements about the parser hold for every tokenizer. This one, for a
subset of XML (elements, attributes in single or double quotes, empty-element
tags, processing instructions), serves to evaluate them on concrete texts. -/

/-- Whether a character may stand in an element or attribute name: a letter, a
digit, or one of `-`, `.`, `:`, `_`. -/
def is_name_char (c : Char) : Bool :=
  (65 ≤ c.toNat && c.toNat ≤ 90) || (97 ≤ c.toNat && c.toNat ≤ 122) ||
    (48 ≤ c.toNat && c.toNat ≤ 58) || c.toNat == 45 || c.toNat == 46 || c.toNat == 95

/-- Whether a character is white space: space, tab, line feed or carriage return. -/
def is_space (c : Char) : Bool :=
  c.toNat == 32 || c.toNat == 9 || c.toNat == 10 || c.toNat == 13

/-- The string whose characters were collected in reverse order. -/
def collected (cs : List Char) : String := String.mk cs.reverse

/-- The places of the small tokenizer within the markup. -/
inductive XmlState where
  | content
  | tag_open
  | instruction (question : Bool)
  | start_name (name : List Char)
  | attributes (name : String) (attrs : List (String × String))
  | attr_name (name : String) (attrs : List (String × String)) (key : List Char)
  | attr_quote (name : String) (attrs : List (String × String)) (key : String)
  | attr_value (name : String) (attrs : List (String × String)) (key : String)
      (quote : Nat) (value : List Char)
  | empty_close (name : String) (attrs : List (String × String))
  | end_name (name : List Char)
deriving DecidableEq, Repr

/-- One character of input to the small tokenizer. -/
def xml_feed : XmlState → Char → Option (XmlState × List Event)
  | XmlState.content, c =>
    if c.toNat = 60 then some (XmlState.tag_open, []) else some (XmlState.content, [])
  | XmlState.tag_open, c =>
    if c.toNat = 63 then some (XmlState.instruction false, [])
    else if c.toNat = 47 then some (XmlState.end_name [], [])
    else if is_name_char c then some (XmlState.start_name [c], [])
    else none
  | XmlState.instruction question, c =>
    if c.toNat = 62 ∧ question = true then some (XmlState.content, [])
    else some (XmlState.instruction (c.toNat == 63), [])
  | XmlState.start_name name, c =>
    if is_name_char c then some (XmlState.start_name (c :: name), [])
    else if is_space c then some (XmlState.attributes (collected name) [], [])
    else if c.toNat = 62 then
      some (XmlState.content, [Event.start_element (collected name) []])
    else if c.toNat = 47 then some (XmlState.empty_close (collected name) [], [])
    else none
  | XmlState.attributes name attrs, c =>
    if is_space c then some (XmlState.attributes name attrs, [])
    else if c.toNat = 62 then some (XmlState.content, [Event.start_element name attrs])
    else if c.toNat = 47 then some (XmlState.empty_close name attrs, [])
    else if is_name_char c then some (XmlState.attr_name name attrs [c], [])
    else none
  | XmlState.attr_name name attrs key, c =>
    if is_name_char c then some (XmlState.attr_name name attrs (c :: key), [])
    else if c.toNat = 61 then some (XmlState.attr_quote name attrs (collected key), [])
    else none
  | XmlState.attr_quote name attrs key, c =>
    if c.toNat = 34 ∨ c.toNat = 39 then
      some (XmlState.attr_value name attrs key c.toNat [], [])
    else none
  | XmlState.attr_value name attrs key quote value, c =>
    if c.toNat = quote then
      some (XmlState.attributes name (attrs ++ [(key, collected value)]), [])
    else if c.toNat = 60 then none
    else some (XmlState.attr_value name attrs key quote (c :: value), [])
  | XmlState.empty_close name attrs, c =>
    if c.toNat = 62 then
      some (XmlState.content, [Event.start_element name attrs, Event.end_element name])
    else none
  | XmlState.end_name name, c =>
    if is_name_char c then some (XmlState.end_name (c :: name), [])
    else if c.toNat = 62 then some (XmlState.content, [Event.end_element (collected name)])
    else none

/-- The small tokenizer; input may end between tags only. -/
def xml_tokenizer : Tokenizer :=
  { σ := XmlState, init := XmlState.content, feed := xml_feed,
    finish := fun s => s == XmlState.content }

/-- A configuration for concrete runs: version 0.6 accepted, every entity kind
read, a payload of eight bytes for each attribute. -/
def test_config : Config :=
  { layout := Layout.lp64, accepted_versions := ["0.6"], read_types := fun _ => true,
    buffer_capacity := 10000, flush_threshold := 9000,
    payload_bytes := fun e => 8 * e.attrs.length }

/-- A sequence of tokens in which every element that starts also ends, in
nesting order. -/
inductive WellNested : List Token → Prop where
  | nil : WellNested []
  | element (l c : Nat) (name : String) (attrs : List (String × String)) (l1 c1 : Nat)
      (name1 : String) (inner rest : List Token) :
      WellNested inner → WellNested rest →
      WellNested (Token.start_element l c name attrs ::
        (inner ++ Token.end_element l1 c1 name1 :: rest))

/-- A sequence of complete elements none of which is an entity element: what a
document root without entities may contain. -/
inductive NoEntities : List Token → Prop where
  | nil : NoEntities []
  | element (l c : Nat) (name : String) (attrs : List (String × String)) (l1 c1 : Nat)
      (name1 : String) (inner rest : List Token) :
      entity_type name = none → WellNested inner → NoEntities rest →
      NoEntities (Token.start_element l c name attrs ::
        (inner ++ Token.end_element l1 c1 name1 :: rest))

/-- The content of a document root that holds the given node entities, in
order, and no other entity: complete node elements, each with well-nested
sub-elements, between complete elements that are no entities. -/
inductive Nodes : List Entity → List Token → Prop where
  | nil : Nodes [] []
  | other (l c : Nat) (name : String) (attrs : List (String × String)) (l1 c1 : Nat)
      (name1 : String) (inner rest : List Token) (es : List Entity) :
      entity_type name = none → WellNested inner → Nodes es rest →
      Nodes es (Token.start_element l c name attrs ::
        (inner ++ Token.end_element l1 c1 name1 :: rest))
  | node (l c : Nat) (attrs : List (String × String)) (l1 c1 : Nat)
      (name1 : String) (inner rest : List Token) (es : List Entity) :
      WellNested inner → Nodes es rest →
      Nodes ({ type := item_type.node, attrs := attrs, children := sub_elements inner } :: es)
        (Token.start_element l c "node" attrs ::
          (inner ++ Token.end_element l1 c1 name1 :: rest))

end osmium

namespace osmium

/-! ## Properties of the identifier arithmetic -/

theorem to_int64_of_object_id (x : Int) (h : is_object_id x) : to_int64 x = x := by
  unfold is_object_id at h
  unfold to_int64
  omega

theorem tdiv_two_nonneg (x : Int) (h : 0 ≤ x) : Int.tdiv x 2 = x / 2 := by
  exact Int.tdiv_eq_ediv h (by decide)

theorem tdiv_two_neg (x : Int) (h : x < 0) : Int.tdiv x 2 = -((-x) / 2) := by
  have h1 : Int.tdiv (-(-x)) 2 = -(Int.tdiv (-x) 2) := Int.neg_tdiv (-x) 2
  rw [neg_neg] at h1
  rw [h1, Int.tdiv_eq_ediv (by omega) (by decide)]

theorem positive_id_mod_two (a : Area) : a.positive_id % 2 = a.id.natAbs % 2 := by
  unfold Area.positive_id
  omega

theorem from_way_eq (a : Area) : a.from_way = decide (a.id.natAbs % 2 = 0) := by
  unfold Area.from_way
  rw [Nat.and_one_is_mod, positive_id_mod_two]
  by_cases h : a.id.natAbs % 2 = 0 <;> simp [h]

theorem orig_id_eq (a : Area) (h : is_object_id a.id) : a.orig_id = Int.tdiv a.id 2 := by
  unfold Area.orig_id
  apply to_int64_of_object_id
  unfold is_object_id at *
  rcases le_or_lt 0 a.id with h0 | h0
  · rw [tdiv_two_nonneg _ h0]; omega
  · rw [tdiv_two_neg _ h0]; omega

/-- C1: for every identifier (every signed 64-bit value in particular), `from_way()` is true exactly when the
identifier is even; the bit tested is bit 0 of `positive_id()`, whose parity is
the parity of the identifier itself. -/
theorem from_way_iff_even (a : Area) :
    (a.from_way = true ↔ Even a.id) ∧ (Even a.positive_id ↔ Even a.id) := by
  have hp := positive_id_mod_two a
  constructor
  · rw [from_way_eq, decide_eq_true_iff, Int.even_iff]
    omega
  · rw [Nat.even_iff, Int.even_iff]
    omega

/-- C2: for every signed 64-bit identifier, `orig_id()` is the identifier divided
by two with truncation toward zero (the sign of the identifier times half its
absolute value, rounded down), and the result is again a signed 64-bit value;
7 gives 3, -7 gives -3 and -1 gives 0. -/
theorem orig_id_truncates (a : Area) (h : is_object_id a.id) :
    a.orig_id = Int.tdiv a.id 2 ∧
      a.orig_id = Int.sign a.id * ((a.id.natAbs / 2 : Nat) : Int) ∧
      is_object_id a.orig_id ∧
      (∀ s, (Area.mk 7 s).orig_id = 3) ∧ (∀ s, (Area.mk (-7) s).orig_id = -3) ∧
      (∀ s, (Area.mk (-1) s).orig_id = 0) := by
  have he := orig_id_eq a h
  refine ⟨he, ?_, ?_, fun _ => by simp only [Area.orig_id]; decide,
    fun _ => by simp only [Area.orig_id]; decide, fun _ => by simp only [Area.orig_id]; decide⟩
  · rw [he]
    rcases lt_trichotomy a.id 0 with h0 | h0 | h0
    · rw [tdiv_two_neg _ h0, Int.sign_eq_neg_one_of_neg h0]
      omega
    · rw [h0]; decide
    · rw [tdiv_two_nonneg _ (le_of_lt h0), Int.sign_eq_one_of_pos h0]
      omega
  · rw [he]
    unfold is_object_id at *
    rcases le_or_lt 0 a.id with h0 | h0
    · rw [tdiv_two_nonneg _ h0]; omega
    · rw [tdiv_two_neg _ h0]; omega

theorem orig_id_truncates_witness :
    is_object_id (-7) ∧ (Area.mk (-7) []).orig_id = Int.tdiv (-7) 2 :=
  ⟨by decide, (orig_id_truncates (Area.mk (-7) []) (by decide)).1⟩

/-! ## Properties of `num_rings` -/

theorem incr_to_int32 (x : Int) : incr (to_int32 x) = to_int32 (x + 1) := by
  unfold incr to_int32
  omega

theorem to_int32_of_small (x : Int) (h0 : 0 ≤ x) (h1 : x < 2 ^ 31) : to_int32 x = x := by
  unfold to_int32
  omega

theorem count_type_cons (t : item_type) (x : Item) (xs : List Item) :
    count_type t (x :: xs) = (if x.type = t then 1 else 0) + count_type t xs := by
  unfold count_type
  by_cases h : x.type = t
  · simp [List.filter_cons, h]; omega
  · simp [List.filter_cons, h]

theorem count_type_le_length (t : item_type) (xs : List Item) :
    count_type t xs ≤ xs.length := by
  unfold count_type
  exact List.length_filter_le _ _

theorem foldl_num_rings_step (xs : List Item) (x y : Int) :
    xs.foldl num_rings_step (to_int32 x, to_int32 y) =
      (to_int32 (x + count_type item_type.outer_ring xs),
        to_int32 (y + count_type item_type.inner_ring xs)) := by
  induction xs generalizing x y with
  | nil => simp [count_type]
  | cons it rest ih =>
    rw [List.foldl_cons, count_type_cons, count_type_cons]
    cases ht : it.type <;>
      simp only [num_rings_step, ht, incr_to_int32, ih, reduceCtorEq, if_false, if_true,
        Nat.zero_add, Nat.cast_add, Nat.cast_one] <;>
      (congr 2; omega)

theorem num_rings_eq (a : Area) :
    a.num_rings =
      (to_int32 (count_type item_type.outer_ring a.subitems),
        to_int32 (count_type item_type.inner_ring a.subitems)) := by
  have h := foldl_num_rings_step a.subitems 0 0
  simpa [Area.num_rings, to_int32] using h

theorem count_rings (xs : List Item) :
    count_type item_type.outer_ring xs + count_type item_type.inner_ring xs =
      (xs.filter Item.is_ring).length := by
  induction xs with
  | nil => simp [count_type]
  | cons it rest ih =>
    rw [count_type_cons, count_type_cons, List.filter_cons]
    cases ht : it.type <;> simp [Item.is_ring, ht] <;> omega

theorem num_rings_exact (a : Area) (h : a.subitems.length < 2 ^ 31) :
    a.num_rings =
      ((count_type item_type.outer_ring a.subitems : Int),
        (count_type item_type.inner_ring a.subitems : Int)) := by
  have ho := count_type_le_length item_type.outer_ring a.subitems
  have hi := count_type_le_length item_type.inner_ring a.subitems
  rw [num_rings_eq, to_int32_of_small _ (by omega) (by omega),
    to_int32_of_small _ (by omega) (by omega)]

theorem length_le_of_sizes (xs : List Item) (h : ∀ it ∈ xs, 4 ≤ it.byte_size) :
    4 * xs.length ≤ (xs.map Item.byte_size).sum := by
  induction xs with
  | nil => simp
  | cons x rest ih =>
    have hx := h x (List.mem_cons_self _ _)
    have hr := ih (fun it hit => h it (List.mem_cons_of_mem _ hit))
    simp only [List.length_cons, List.map_cons, List.sum_cons]
    omega

/-- C3: for every Area (a record: its sub-records fit the 32-bit byte length of a
record), whatever the sequence of its sub-records, `num_rings()` returns the
number of sub-records tagged `outer_ring` and the number tagged `inner_ring`, and
the two numbers add up to the number of ring sub-records. -/
theorem num_rings_counts (a : Area) (h : a.fits_record) :
    a.num_rings =
        ((count_type item_type.outer_ring a.subitems : Int),
          (count_type item_type.inner_ring a.subitems : Int)) ∧
      a.num_rings.1 + a.num_rings.2 = ((a.subitems.filter Item.is_ring).length : Int) := by
  have hlen : a.subitems.length < 2 ^ 31 := by
    have h1 := length_le_of_sizes a.subitems h.1
    have h2 := h.2
    omega
  have hr := count_rings a.subitems
  have e := num_rings_exact a hlen
  refine ⟨e, ?_⟩
  rw [e]
  simp only
  omega

theorem num_rings_counts_witness :
    (Area.mk 17 [⟨item_type.outer_ring, 40⟩, ⟨item_type.tag_list, 16⟩,
        ⟨item_type.inner_ring, 24⟩, ⟨item_type.outer_ring, 56⟩]).fits_record ∧
      (Area.mk 17 [⟨item_type.outer_ring, 40⟩, ⟨item_type.tag_list, 16⟩,
        ⟨item_type.inner_ring, 24⟩, ⟨item_type.outer_ring, 56⟩]).num_rings = (2, 1) :=
  ⟨by decide,
    (num_rings_counts (Area.mk 17 [⟨item_type.outer_ring, 40⟩, ⟨item_type.tag_list, 16⟩,
      ⟨item_type.inner_ring, 24⟩, ⟨item_type.outer_ring, 56⟩]) (by decide)).1⟩

/-- C4: `num_rings()` does not depend on the order of the sub-records: two Areas
whose sub-record sequences are permutations of each other have the same pair of
counts. -/
theorem num_rings_perm (a b : Area) (h : a.subitems.Perm b.subitems) :
    a.num_rings = b.num_rings := by
  rw [num_rings_eq, num_rings_eq]
  unfold count_type
  rw [(h.filter _).length_eq, (h.filter _).length_eq]

theorem num_rings_perm_witness :
    (Area.mk 4 [⟨item_type.outer_ring, 40⟩, ⟨item_type.inner_ring, 24⟩]).num_rings =
      (Area.mk 4 [⟨item_type.inner_ring, 24⟩, ⟨item_type.outer_ring, 40⟩]).num_rings :=
  num_rings_perm (Area.mk 4 [⟨item_type.outer_ring, 40⟩, ⟨item_type.inner_ring, 24⟩])
    (Area.mk 4 [⟨item_type.inner_ring, 24⟩, ⟨item_type.outer_ring, 40⟩])
    (List.Perm.swap _ _ [])

/-! ## Properties of the rings -/

theorem foldl_add_node_ref (L : Layout) (xs : List NodeRef) (r : OuterRing) :
    xs.foldl (OuterRing.add_node_ref L) r =
      { byte_size := r.byte_size + xs.length * L.sizeof_NodeRef, data := r.data ++ xs } := by
  induction xs generalizing r with
  | nil => simp
  | cons x rest ih =>
    rw [List.foldl_cons, ih]
    simp only [OuterRing.add_node_ref, List.length_cons, List.append_assoc, List.singleton_append,
      OuterRing.mk.injEq, and_true]
    ring

theorem build_eq (L : Layout) (xs : List NodeRef) :
    OuterRing.build L xs =
      { byte_size := L.sizeof_OuterRing + xs.length * L.sizeof_NodeRef, data := xs } := by
  unfold OuterRing.build
  rw [foldl_add_node_ref]
  simp [OuterRing.empty]

theorem size_t_sub (hs n ns : Nat) (h : hs + n * ns < 2 ^ 64) :
    to_size_t (((hs + n * ns : Nat) : Int) - hs) = n * ns := by
  unfold to_size_t
  have h1 : (((hs + n * ns : Nat) : Int) - hs) = ((n * ns : Nat) : Int) := by
    push_cast; ring
  rw [h1]
  have h2 : n * ns < 2 ^ 64 := by omega
  omega

/-- C5: for every sequence of NodeRefs appended to an empty OuterRing (the ring
fitting in the range of `size_t`), `size()` is the number of NodeRefs appended and
`operator[]` at every index below it gives the NodeRef appended at that position:
append order, repeated elements kept. -/
theorem outer_ring_size_and_index (L : Layout) (xs : List NodeRef)
    (h : L.sizeof_OuterRing + xs.length * L.sizeof_NodeRef < 2 ^ 64) :
    (OuterRing.build L xs).size L = some xs.length ∧
      ∀ n (hn : n < xs.length), (OuterRing.build L xs).get n = some (xs.get ⟨n, hn⟩) := by
  rw [build_eq]
  constructor
  · unfold OuterRing.size OuterRing.size_assertion
    simp only
    rw [size_t_sub _ _ _ h]
    simp [Nat.mul_div_cancel _ L.node_ref_pos]
  · intro n hn
    simp [OuterRing.get, List.getElem?_eq_getElem hn]

theorem outer_ring_size_and_index_witness :
    (OuterRing.build Layout.lp64 [⟨5, none⟩, ⟨9, some (1, 2)⟩, ⟨5, none⟩]).size Layout.lp64
        = some 3 ∧
      (OuterRing.build Layout.lp64 [⟨5, none⟩, ⟨9, some (1, 2)⟩, ⟨5, none⟩]).get 2
        = some ⟨5, none⟩ :=
  ⟨(outer_ring_size_and_index Layout.lp64 [⟨5, none⟩, ⟨9, some (1, 2)⟩, ⟨5, none⟩]
      (by decide)).1,
    (outer_ring_size_and_index Layout.lp64 [⟨5, none⟩, ⟨9, some (1, 2)⟩, ⟨5, none⟩]
      (by decide)).2 2 (by decide)⟩

/-- C6: halving is many-to-one and `from_way()` separates the two provenances:
for every `k ≥ 0` with `2 * k + 1` a signed 64-bit identifier, the distinct
identifiers `2 * k` and `2 * k + 1` both have `orig_id() = k`, while `from_way()`
is true for `2 * k` and false for `2 * k + 1`. -/
theorem orig_id_many_to_one (k : Int) (h0 : 0 ≤ k) (h1 : 2 * k + 1 < 2 ^ 63)
    (s t : List Item) :
    2 * k ≠ 2 * k + 1 ∧ (Area.mk (2 * k) s).orig_id = k ∧
      (Area.mk (2 * k + 1) t).orig_id = k ∧ (Area.mk (2 * k) s).from_way = true ∧
      (Area.mk (2 * k + 1) t).from_way = false := by
  have ha : is_object_id (Area.mk (2 * k) s).id := by
    simp only [is_object_id]; omega
  have hb : is_object_id (Area.mk (2 * k + 1) t).id := by
    simp only [is_object_id]; omega
  refine ⟨by omega, ?_, ?_, ?_, ?_⟩
  · rw [orig_id_eq _ ha]
    simp only
    rw [tdiv_two_nonneg _ (by omega)]; omega
  · rw [orig_id_eq _ hb]
    simp only
    rw [tdiv_two_nonneg _ (by omega)]; omega
  · rw [from_way_eq, decide_eq_true_iff]
    simp only
    omega
  · rw [from_way_eq, decide_eq_false_iff_not]
    simp only
    omega

theorem orig_id_many_to_one_witness :
    (Area.mk 10 []).orig_id = 5 ∧ (Area.mk 11 []).orig_id = 5 ∧
      (Area.mk 10 []).from_way = true ∧ (Area.mk 11 []).from_way = false :=
  (orig_id_many_to_one 5 (by decide) (by decide) [] []).2

/-! ## Properties of the streaming parser -/

theorem handle_error (cfg : Config) (p : XMLParser) (e : ParseError) (t : Token)
    (h : p.state = State.error e) : XMLParser.handle cfg p t = p := by
  unfold XMLParser.handle
  rw [h]

theorem foldl_handle_error (cfg : Config) (ts : List Token) (p : XMLParser) (e : ParseError)
    (h : p.state = State.error e) : ts.foldl (XMLParser.handle cfg) p = p := by
  induction ts with
  | nil => rfl
  | cons t rest ih => rw [List.foldl_cons, handle_error cfg p e t h, ih]

theorem handle_done (cfg : Config) (p : XMLParser) (t : Token)
    (h : p.state = State.done) : XMLParser.handle cfg p t = p := by
  unfold XMLParser.handle
  rw [h]

theorem foldl_handle_done (cfg : Config) (ts : List Token) (p : XMLParser)
    (h : p.state = State.done) : ts.foldl (XMLParser.handle cfg) p = p := by
  induction ts with
  | nil => rfl
  | cons t rest ih => rw [List.foldl_cons, handle_done cfg p t h, ih]

theorem root_element_tokens (T : Tokenizer) (text : List Char) (name : String)
    (attrs : List (String × String)) (h : root_element T text = some (name, attrs)) :
    ∃ l c rest, tokenize T text = Token.start_element l c name attrs :: rest := by
  unfold root_element at h
  split at h
  · rename_i l c n a rest heq
    simp only [Option.some.injEq, Prod.mk.injEq] at h
    exact ⟨l, c, rest, by rw [heq, h.1, h.2]⟩
  · exact absurd h (by simp)

theorem run_root (cfg : Config) (l c : Nat) (name : String) (attrs : List (String × String))
    (rest : List Token) :
    XMLParser.run cfg (Token.start_element l c name attrs :: rest) =
      rest.foldl (XMLParser.handle cfg) ((XMLParser.init cfg).start_root cfg attrs) := by
  rfl

/-- C7: a document whose root element carries no version attribute ends the parse
with a format-version error whose version is the empty string, and no Buffer is
pushed. -/
theorem missing_version_raises (T : Tokenizer) (cfg : Config) (chunks : List String)
    (text : List Char) (name : String) (attrs : List (String × String))
    (hin : read_input chunks = some text)
    (hroot : root_element T text = some (name, attrs))
    (hv : attrs.lookup "version" = none) :
    ∃ p, XMLParser.parse T cfg chunks = some p ∧
      p.raised = some (ParseError.format_version_error "") ∧ pushed p.effects = [] := by
  obtain ⟨l, c, rest, htok⟩ := root_element_tokens T text name attrs hroot
  refine ⟨(XMLParser.init cfg).fail (ParseError.format_version_error ""), ?_, rfl, rfl⟩
  unfold XMLParser.parse
  rw [hin, Option.map_some', htok, run_root]
  have hs : (XMLParser.init cfg).start_root cfg attrs =
      (XMLParser.init cfg).fail (ParseError.format_version_error "") := by
    unfold XMLParser.start_root
    rw [hv]
  rw [hs, foldl_handle_error cfg rest _ (ParseError.format_version_error "") rfl]

theorem missing_version_raises_witness :
    ∃ p, XMLParser.parse xml_tokenizer test_config
        ["<?xml version='1.0'?>\n<osm generator='testdata'>\n", "</osm>\n", ""] = some p ∧
      p.raised = some (ParseError.format_version_error "") ∧ pushed p.effects = [] :=
  missing_version_raises xml_tokenizer test_config
    ["<?xml version='1.0'?>\n<osm generator='testdata'>\n", "</osm>\n", ""]
    "<?xml version='1.0'?>\n<osm generator='testdata'>\n</osm>\n".data
    "osm" [("generator", "testdata")] (by decide) (by decide) (by decide)

/-- C8: a document whose root element carries a version attribute that is not an
accepted value ends the parse with a format-version error whose version is the
text of the attribute, and no Buffer is pushed; so it is for the texts 0.1 and
0.5 whenever they are not accepted. -/
theorem wrong_version_raises (T : Tokenizer) (cfg : Config) (chunks : List String)
    (text : List Char) (name : String) (attrs : List (String × String)) (v : String)
    (hin : read_input chunks = some text)
    (hroot : root_element T text = some (name, attrs))
    (hv : attrs.lookup "version" = some v) (hacc : v ∉ cfg.accepted_versions) :
    ∃ p, XMLParser.parse T cfg chunks = some p ∧
      p.raised = some (ParseError.format_version_error v) ∧ pushed p.effects = [] := by
  obtain ⟨l, c, rest, htok⟩ := root_element_tokens T text name attrs hroot
  refine ⟨(XMLParser.init cfg).fail (ParseError.format_version_error v), ?_, rfl, rfl⟩
  unfold XMLParser.parse
  rw [hin, Option.map_some', htok, run_root]
  have hs : (XMLParser.init cfg).start_root cfg attrs =
      (XMLParser.init cfg).fail (ParseError.format_version_error v) := by
    unfold XMLParser.start_root
    rw [hv]
    simp only [if_neg hacc]
  rw [hs, foldl_handle_error cfg rest _ (ParseError.format_version_error v) rfl]

theorem wrong_version_raises_witness :
    (∃ p, XMLParser.parse xml_tokenizer test_config
        ["<osm version='0.1' generator='testdata'>\n</osm>\n", ""] = some p ∧
      p.raised = some (ParseError.format_version_error "0.1") ∧ pushed p.effects = []) ∧
    (∃ p, XMLParser.parse xml_tokenizer test_config
        ["<osm version='0.5' generator='testdata'>\n</osm>\n", ""] = some p ∧
      p.raised = some (ParseError.format_version_error "0.5") ∧ pushed p.effects = []) :=
  ⟨wrong_version_raises xml_tokenizer test_config
      ["<osm version='0.1' generator='testdata'>\n</osm>\n", ""]
      "<osm version='0.1' generator='testdata'>\n</osm>\n".data
      "osm" [("version", "0.1"), ("generator", "testdata")] "0.1"
      (by decide) (by decide) (by decide) (by decide),
    wrong_version_raises xml_tokenizer test_config
      ["<osm version='0.5' generator='testdata'>\n</osm>\n", ""]
      "<osm version='0.5' generator='testdata'>\n</osm>\n".data
      "osm" [("version", "0.5"), ("generator", "testdata")] "0.5"
      (by decide) (by decide) (by decide) (by decide)⟩

/-- C9: the empty input, a zero-byte chunk followed by the end-of-input
sentinel, ends the parse with a markup error at line 1, column 0, whatever the
tokenizer. -/
theorem empty_input_raises (T : Tokenizer) (cfg : Config) :
    ∃ p, XMLParser.parse T cfg ["", ""] = some p ∧
      p.raised = some (ParseError.xml_error 1 0) := by
  refine ⟨(XMLParser.init cfg).fail (ParseError.xml_error 1 0), ?_, rfl⟩
  have hin : read_input ["", ""] = some [] := by decide
  unfold XMLParser.parse
  rw [hin, Option.map_some']
  unfold tokenize tokenize_from
  cases T.finish T.init <;> rfl

theorem foldl_handle_nested (cfg : Config) (inner : List Token) (h : WellNested inner) :
    ∀ (p : XMLParser) (d : Nat), p.depth = d + 2 → p.entity = none →
      (p.state = State.reading_header ∨ p.state = State.reading_body) →
      inner.foldl (XMLParser.handle cfg) p = p := by
  induction h with
  | nil => intro p d _ _ _; rfl
  | element l c name attrs l1 c1 name1 inner rest _ _ ih1 ih2 =>
    intro p d hd he hs
    obtain ⟨state, depth, entity, header, buffer, effects⟩ := p
    simp only at hd he hs
    subst hd he
    rw [List.foldl_cons, List.foldl_append, List.foldl_cons]
    have h1 : XMLParser.handle cfg
        { state := state, depth := d + 2, entity := none, header := header,
          buffer := buffer, effects := effects } (Token.start_element l c name attrs) =
        { state := state, depth := d + 1 + 2, entity := none, header := header,
          buffer := buffer, effects := effects } := by
      rcases hs with hs | hs <;> subst hs <;> rfl
    rw [h1, ih1 _ (d + 1) rfl rfl hs]
    have h2 : XMLParser.handle cfg
        { state := state, depth := d + 1 + 2, entity := none, header := header,
          buffer := buffer, effects := effects } (Token.end_element l1 c1 name1) =
        { state := state, depth := d + 2, entity := none, header := header,
          buffer := buffer, effects := effects } := by
      rcases hs with hs | hs <;> subst hs <;> rfl
    rw [h2, ih2 _ d rfl rfl hs]

theorem foldl_handle_no_entities (cfg : Config) (body : List Token) (h : NoEntities body) :
    ∀ (p : XMLParser), p.depth = 1 → p.entity = none →
      (p.state = State.reading_header ∨ p.state = State.reading_body) →
      body.foldl (XMLParser.handle cfg) p = p := by
  induction h with
  | nil => intro p _ _ _; rfl
  | element l c name attrs l1 c1 name1 inner rest hname hinner _ ih =>
    intro p hd he hs
    obtain ⟨state, depth, entity, header, buffer, effects⟩ := p
    simp only at hd he hs
    subst hd he
    rw [List.foldl_cons, List.foldl_append, List.foldl_cons]
    have h1 : XMLParser.handle cfg
        { state := state, depth := 1, entity := none, header := header,
          buffer := buffer, effects := effects } (Token.start_element l c name attrs) =
        { state := state, depth := 0 + 2, entity := none, header := header,
          buffer := buffer, effects := effects } := by
      rcases hs with hs | hs <;> subst hs <;>
        simp only [XMLParser.handle, XMLParser.start_element, hname]
    rw [h1, foldl_handle_nested cfg inner hinner _ 0 rfl rfl hs]
    have h2 : XMLParser.handle cfg
        { state := state, depth := 0 + 2, entity := none, header := header,
          buffer := buffer, effects := effects } (Token.end_element l1 c1 name1) =
        { state := state, depth := 1, entity := none, header := header,
          buffer := buffer, effects := effects } := by
      rcases hs with hs | hs <;> subst hs <;> rfl
    rw [h2, ih _ rfl rfl hs]

/-- C10: a well-formed document with an accepted version, a generator attribute
`g` on the root and no entity element parses to the end without error; the
Header published answers `g` for the key generator, and exactly one Buffer is
pushed, which is empty (committed size 0). -/
theorem header_without_entities (T : Tokenizer) (cfg : Config) (chunks : List String)
    (text : List Char) (l c : Nat) (name : String) (attrs : List (String × String))
    (body : List Token) (l1 c1 : Nat) (name1 : String) (l2 c2 : Nat) (v g : String)
    (hin : read_input chunks = some text)
    (htok : tokenize T text = Token.start_element l c name attrs ::
      (body ++ [Token.end_element l1 c1 name1, Token.end_of_input l2 c2]))
    (hbody : NoEntities body)
    (hv : attrs.lookup "version" = some v) (hacc : v ∈ cfg.accepted_versions)
    (hg : attrs.lookup "generator" = some g) :
    ∃ p, XMLParser.parse T cfg chunks = some p ∧ p.state = State.done ∧
      (∃ h, header_cell p.effects = some h ∧ h.get "generator" = g) ∧
      ∃ b, pushed p.effects = [b] ∧ b.committed = 0 := by
  have hs : (XMLParser.init cfg).start_root cfg attrs =
      { state := State.reading_header, depth := 1, entity := none,
        header := { options := attrs, version := v },
        buffer := Arena.empty cfg.buffer_capacity, effects := [] } := by
    unfold XMLParser.start_root
    rw [hv]
    simp only [if_pos hacc]
    rfl
  have hrun : XMLParser.run cfg (Token.start_element l c name attrs ::
      (body ++ [Token.end_element l1 c1 name1, Token.end_of_input l2 c2])) =
      { state := State.done, depth := 0, entity := none,
        header := { options := attrs, version := v },
        buffer := Arena.empty cfg.buffer_capacity,
        effects := [Effect.set_header { options := attrs, version := v },
          Effect.push (Arena.empty 0)] } := by
    rw [run_root, hs, List.foldl_append,
      foldl_handle_no_entities cfg body hbody _ rfl rfl (Or.inl rfl)]
    rfl
  have hp : XMLParser.parse T cfg chunks = some (XMLParser.run cfg (tokenize T text)) := by
    unfold XMLParser.parse
    rw [hin, Option.map_some']
  rw [htok, hrun] at hp
  exact ⟨_, hp, rfl, ⟨_, rfl, by simp only [Header.get, hg, Option.getD_some]⟩, ⟨_, rfl, rfl⟩⟩

theorem header_without_entities_witness :
    ∃ p, XMLParser.parse xml_tokenizer test_config
        ["<osm version='0.6' generator='testdata'>\n", " <bounds minlat='1'/>\n</osm>\n", ""]
        = some p ∧ p.state = State.done ∧
      (∃ h, header_cell p.effects = some h ∧ h.get "generator" = "testdata") ∧
      ∃ b, pushed p.effects = [b] ∧ b.committed = 0 :=
  header_without_entities xml_tokenizer test_config
    ["<osm version='0.6' generator='testdata'>\n", " <bounds minlat='1'/>\n</osm>\n", ""]
    "<osm version='0.6' generator='testdata'>\n <bounds minlat='1'/>\n</osm>\n".data
    1 39 "osm" [("version", "0.6"), ("generator", "testdata")]
    [Token.start_element 2 20 "bounds" [("minlat", "1")], Token.end_element 2 20 "bounds"]
    3 5 "osm" 4 0 "0.6" "testdata" (by decide) (by decide)
    (NoEntities.element 2 20 "bounds" [("minlat", "1")] 2 20 "bounds" [] []
      (by decide) WellNested.nil NoEntities.nil)
    (by decide) (by decide) (by decide)

/-! ## Further properties of `num_rings` -/

theorem count_type_filter_ring_outer (xs : List Item) :
    count_type item_type.outer_ring (xs.filter Item.is_ring) =
      count_type item_type.outer_ring xs := by
  unfold count_type
  rw [List.filter_filter]
  congr 1
  apply List.filter_congr
  intro it _
  cases ht : it.type <;> simp [Item.is_ring, ht]

theorem count_type_filter_ring_inner (xs : List Item) :
    count_type item_type.inner_ring (xs.filter Item.is_ring) =
      count_type item_type.inner_ring xs := by
  unfold count_type
  rw [List.filter_filter]
  congr 1
  apply List.filter_congr
  intro it _
  cases ht : it.type <;> simp [Item.is_ring, ht]

theorem count_type_append (t : item_type) (xs ys : List Item) :
    count_type t (xs ++ ys) = count_type t xs + count_type t ys := by
  unfold count_type
  rw [List.filter_append, List.length_append]

/-- C15: sub-records that are neither outer nor inner rings are skipped by
`num_rings()`: on every sub-record sequence it returns (it is a total function)
the pair it returns on the sequence with the non-ring sub-records removed, and
an Area without ring sub-records gives `(0, 0)`. -/
theorem num_rings_skips_others (a : Area) :
    a.num_rings = (Area.mk a.id (a.subitems.filter Item.is_ring)).num_rings ∧
      ((∀ it ∈ a.subitems, it.is_ring = false) → a.num_rings = (0, 0)) := by
  have e : a.num_rings = (Area.mk a.id (a.subitems.filter Item.is_ring)).num_rings := by
    rw [num_rings_eq, num_rings_eq]
    simp only [count_type_filter_ring_outer, count_type_filter_ring_inner]
  refine ⟨e, fun h => ?_⟩
  have hnil : a.subitems.filter Item.is_ring = [] := by
    rw [List.filter_eq_nil_iff]
    intro it hit
    rw [h it hit]
    decide
  rw [e, hnil]
  rfl

theorem num_rings_skips_others_witness :
    (Area.mk 8 [⟨item_type.tag_list, 32⟩, ⟨item_type.outer_ring, 40⟩]).num_rings =
        (Area.mk 8 [⟨item_type.outer_ring, 40⟩]).num_rings ∧
      (Area.mk 8 [⟨item_type.tag_list, 32⟩]).num_rings = (0, 0) :=
  ⟨(num_rings_skips_others (Area.mk 8 [⟨item_type.tag_list, 32⟩,
      ⟨item_type.outer_ring, 40⟩])).1,
    (num_rings_skips_others (Area.mk 8 [⟨item_type.tag_list, 32⟩])).2 (by decide)⟩

/-- C19: without overflow of the `int` counters (fewer than `2 ^ 31` sub-records
in all), `num_rings()` is additive over concatenation: on `xs ++ ys` it is the
componentwise sum of its values on `xs` and on `ys`; on the empty sequence it
is `(0, 0)`; and both counts are non-negative. -/
theorem num_rings_append (i j k : Int) (xs ys : List Item)
    (h : (xs ++ ys).length < 2 ^ 31) :
    (Area.mk i (xs ++ ys)).num_rings =
        ((Area.mk j xs).num_rings.1 + (Area.mk k ys).num_rings.1,
          (Area.mk j xs).num_rings.2 + (Area.mk k ys).num_rings.2) ∧
      (Area.mk i []).num_rings = (0, 0) ∧
      0 ≤ (Area.mk i (xs ++ ys)).num_rings.1 ∧ 0 ≤ (Area.mk i (xs ++ ys)).num_rings.2 := by
  rw [List.length_append] at h
  have hx : (Area.mk j xs).subitems.length < 2 ^ 31 := by simp only; omega
  have hy : (Area.mk k ys).subitems.length < 2 ^ 31 := by simp only; omega
  have hxy : (Area.mk i (xs ++ ys)).subitems.length < 2 ^ 31 := by
    simp only [List.length_append]; omega
  have e1 := (num_rings_exact _ hx)
  have e2 := (num_rings_exact _ hy)
  have e3 := (num_rings_exact _ hxy)
  rw [e1, e2, e3]
  simp only [count_type_append, Nat.cast_add]
  exact ⟨trivial, rfl, by omega, by omega⟩

theorem num_rings_append_witness :
    (Area.mk 3 ([⟨item_type.outer_ring, 40⟩] ++ [⟨item_type.inner_ring, 24⟩,
        ⟨item_type.outer_ring, 24⟩])).num_rings = (1 + 1, 0 + 1) :=
  (num_rings_append 3 3 3 [⟨item_type.outer_ring, 40⟩] [⟨item_type.inner_ring, 24⟩,
    ⟨item_type.outer_ring, 24⟩] (by decide)).1

/-! ## Further properties of the rings -/

theorem foldl_add_node_ref_inner (L : Layout) (xs : List NodeRef) (r : InnerRing) :
    xs.foldl (InnerRing.add_node_ref L) r =
      { byte_size := r.byte_size + xs.length * L.sizeof_NodeRef, data := r.data ++ xs } := by
  induction xs generalizing r with
  | nil => simp
  | cons x rest ih =>
    rw [List.foldl_cons, ih]
    simp only [InnerRing.add_node_ref, List.length_cons, List.append_assoc, List.singleton_append,
      InnerRing.mk.injEq, and_true]
    ring

theorem build_inner_eq (L : Layout) (xs : List NodeRef) :
    InnerRing.build L xs =
      { byte_size := L.sizeof_InnerRing + xs.length * L.sizeof_NodeRef, data := xs } := by
  unfold InnerRing.build
  rw [foldl_add_node_ref_inner]
  simp [InnerRing.empty]

theorem size_t_sub_exact (hs n ns : Nat) (h : hs + n * ns < 2 ^ 64) :
    ((to_size_t (((hs + n * ns : Nat) : Int) - hs) : Nat) : Int) =
      ((hs + n * ns : Nat) : Int) - hs := by
  rw [size_t_sub hs n ns h]
  push_cast
  ring

/-- C16: for an OuterRing and for an InnerRing whose byte size is the size of the
ring header plus `n` times `sizeof(NodeRef)` (a `size_t` value), the assertion of
`size()` holds, the subtraction does not wrap around (its `size_t` result is the
true difference), and `size()` returns `n`, so that header size plus `size()`
times `sizeof(NodeRef)` is the byte size; every ring built by appending NodeRefs
to an empty ring has such a byte size. -/
theorem ring_size_exact (L : Layout) (o : OuterRing) (i : InnerRing) (n m : Nat)
    (ho : o.byte_size = L.sizeof_OuterRing + n * L.sizeof_NodeRef)
    (hi : i.byte_size = L.sizeof_InnerRing + m * L.sizeof_NodeRef)
    (hob : o.byte_size < 2 ^ 64) (hib : i.byte_size < 2 ^ 64) :
    (o.size_assertion L = true ∧
        ((to_size_t ((o.byte_size : Int) - L.sizeof_OuterRing) : Nat) : Int) =
          (o.byte_size : Int) - L.sizeof_OuterRing ∧
        o.size L = some n ∧ L.sizeof_OuterRing + n * L.sizeof_NodeRef = o.byte_size) ∧
      (i.size_assertion L = true ∧
        ((to_size_t ((i.byte_size : Int) - L.sizeof_InnerRing) : Nat) : Int) =
          (i.byte_size : Int) - L.sizeof_InnerRing ∧
        i.size L = some m ∧ L.sizeof_InnerRing + m * L.sizeof_NodeRef = i.byte_size) ∧
      (∀ xs : List NodeRef, (OuterRing.build L xs).byte_size =
        L.sizeof_OuterRing + xs.length * L.sizeof_NodeRef) ∧
      (∀ xs : List NodeRef, (InnerRing.build L xs).byte_size =
        L.sizeof_InnerRing + xs.length * L.sizeof_NodeRef) := by
  rw [ho] at hob
  rw [hi] at hib
  have ao : o.size_assertion L = true := by
    unfold OuterRing.size_assertion
    rw [ho, size_t_sub _ _ _ hob]
    simp
  have ai : i.size_assertion L = true := by
    unfold InnerRing.size_assertion
    rw [hi, size_t_sub _ _ _ hib]
    simp
  refine ⟨⟨ao, ?_, ?_, ho.symm⟩, ⟨ai, ?_, ?_, hi.symm⟩, ?_, ?_⟩
  · rw [ho]; exact size_t_sub_exact _ _ _ hob
  · unfold OuterRing.size
    rw [if_pos ao, ho, size_t_sub _ _ _ hob, Nat.mul_div_cancel _ L.node_ref_pos]
  · rw [hi]; exact size_t_sub_exact _ _ _ hib
  · unfold InnerRing.size
    rw [if_pos ai, hi, size_t_sub _ _ _ hib, Nat.mul_div_cancel _ L.node_ref_pos]
  · intro xs; rw [build_eq]
  · intro xs; rw [build_inner_eq]

theorem ring_size_exact_witness :
    (OuterRing.mk 40 [⟨1, none⟩, ⟨2, none⟩]).size Layout.lp64 = some 2 ∧
      (InnerRing.mk 8 []).size Layout.lp64 = some 0 :=
  ⟨(ring_size_exact Layout.lp64 (OuterRing.mk 40 [⟨1, none⟩, ⟨2, none⟩]) (InnerRing.mk 8 [])
      2 0 (by decide) (by decide) (by decide) (by decide)).1.2.2.1,
    (ring_size_exact Layout.lp64 (OuterRing.mk 40 [⟨1, none⟩, ⟨2, none⟩]) (InnerRing.mk 8 [])
      2 0 (by decide) (by decide) (by decide) (by decide)).2.1.2.2.1⟩

/-! ## Further properties of the identifier arithmetic -/

/-- C17: on non-negative identifiers the pair of `from_way()` and `orig_id()`
determines the identifier: it is twice `orig_id()`, plus one when `from_way()` is
false; so two non-negative identifiers with the same `from_way()` and the same
`orig_id()` are equal. -/
theorem id_from_orig_id (a b : Area) (ha : is_object_id a.id) (hb : is_object_id b.id)
    (ha0 : 0 ≤ a.id) (hb0 : 0 ≤ b.id) :
    a.id = 2 * a.orig_id + (if a.from_way = true then 0 else 1) ∧
      (a.from_way = b.from_way → a.orig_id = b.orig_id → a.id = b.id) := by
  have key : ∀ c : Area, is_object_id c.id → 0 ≤ c.id →
      c.id = 2 * c.orig_id + (if c.from_way = true then 0 else 1) := by
    intro c hc hc0
    rw [orig_id_eq c hc, tdiv_two_nonneg _ hc0, from_way_eq]
    by_cases h : c.id.natAbs % 2 = 0
    · simp only [h, decide_True, if_true]; omega
    · simp only [h, decide_False, if_false, Bool.false_eq_true]; omega
  refine ⟨key a ha ha0, fun hf ho => ?_⟩
  rw [key a ha ha0, key b hb hb0, hf, ho]

theorem id_from_orig_id_witness :
    (Area.mk 11 []).id = 2 * (Area.mk 11 []).orig_id +
      (if (Area.mk 11 []).from_way = true then 0 else 1) :=
  (id_from_orig_id (Area.mk 11 []) (Area.mk 10 []) (by decide) (by decide) (by decide)
    (by decide)).1

/-- C18: negating an identifier other than the least 64-bit value keeps
`from_way()` and negates `orig_id()`; the identifiers 1 and -1 both have
`from_way()` false and `orig_id()` 0. -/
theorem negated_id (a : Area) (s : List Item) (h : is_object_id a.id)
    (hmin : a.id ≠ -(2 ^ 63)) :
    (Area.mk (-a.id) s).from_way = a.from_way ∧
      (Area.mk (-a.id) s).orig_id = -a.orig_id ∧
      (Area.mk 1 s).from_way = false ∧ (Area.mk (-1) s).from_way = false ∧
      (Area.mk 1 s).orig_id = 0 ∧ (Area.mk (-1) s).orig_id = 0 := by
  have hn : is_object_id (Area.mk (-a.id) s).id := by
    unfold is_object_id at *
    simp only
    omega
  refine ⟨?_, ?_, by simp only [Area.from_way, Area.positive_id]; decide,
    by simp only [Area.from_way, Area.positive_id]; decide,
    by simp only [Area.orig_id]; decide, by simp only [Area.orig_id]; decide⟩
  · rw [from_way_eq, from_way_eq]
    simp only [Int.natAbs_neg]
  · rw [orig_id_eq _ hn, orig_id_eq _ h]
    exact Int.neg_tdiv a.id 2

theorem negated_id_witness :
    (Area.mk (-(Area.mk 7 []).id) []).from_way = (Area.mk 7 []).from_way ∧
      (Area.mk (-(Area.mk 7 []).id) []).orig_id = -(Area.mk 7 []).orig_id :=
  ⟨(negated_id (Area.mk 7 []) [] (by decide) (by decide)).1,
    (negated_id (Area.mk 7 []) [] (by decide) (by decide)).2.1⟩

/-! ## Properties of the Arena -/

theorem padded_length_mod (L : Layout) (n : Nat) : padded_length L n % L.align_bytes = 0 := by
  unfold padded_length
  exact Nat.mul_mod_left _ _

theorem padded_length_ge (L : Layout) (n : Nat) : n ≤ padded_length L n := by
  unfold padded_length
  have hpos := L.align_pos
  have h := Nat.div_add_mod (n + L.align_bytes - 1) L.align_bytes
  have hlt := Nat.mod_lt (n + L.align_bytes - 1) hpos
  rw [Nat.mul_comm] at h
  omega

theorem record_size_pos (L : Layout) (n : Nat) : 0 < padded_length L (L.sizeof_Item + n) := by
  have h := padded_length_ge L (L.sizeof_Item + n)
  have hpos := L.item_pos
  omega

/-- What every operation on an Arena keeps: the committed length is at most the
cursor, the cursor at most the capacity, and both are multiples of the
alignment unit. -/
theorem arena_apply_keeps (L : Layout) (a : Arena) (op : ArenaOp)
    (h : a.committed ≤ a.written ∧ a.written ≤ a.capacity ∧
      a.written % L.align_bytes = 0 ∧ a.committed % L.align_bytes = 0) :
    (a.apply L op).committed ≤ (a.apply L op).written ∧
      (a.apply L op).written ≤ (a.apply L op).capacity ∧
      (a.apply L op).written % L.align_bytes = 0 ∧
      (a.apply L op).committed % L.align_bytes = 0 := by
  obtain ⟨h1, h2, h3, h4⟩ := h
  cases op with
  | append_item tag id payload_bytes =>
    simp only [Arena.apply, Arena.append_item]
    refine ⟨by omega, le_max_right _ _, ?_, h4⟩
    rw [Nat.add_mod, h3, padded_length_mod]
    exact Nat.zero_mod _
  | commit =>
    simp only [Arena.apply, Arena.commit]
    exact ⟨le_refl _, h2, h3, h3⟩
  | rollback =>
    simp only [Arena.apply, Arena.rollback]
    exact ⟨le_refl _, by omega, h4, h4⟩

theorem arena_foldl_keeps (L : Layout) (ops : List ArenaOp) (a : Arena)
    (h : a.committed ≤ a.written ∧ a.written ≤ a.capacity ∧
      a.written % L.align_bytes = 0 ∧ a.committed % L.align_bytes = 0) :
    (ops.foldl (Arena.apply L) a).committed ≤ (ops.foldl (Arena.apply L) a).written ∧
      (ops.foldl (Arena.apply L) a).written ≤ (ops.foldl (Arena.apply L) a).capacity ∧
      (ops.foldl (Arena.apply L) a).written % L.align_bytes = 0 ∧
      (ops.foldl (Arena.apply L) a).committed % L.align_bytes = 0 := by
  induction ops generalizing a with
  | nil => exact h
  | cons op rest ih =>
    rw [List.foldl_cons]
    exact ih _ (arena_apply_keeps L a op h)

/-- C14: in every state reached from an empty Arena by a sequence of
`append_item`, `commit` and `rollback`, the committed length is at most the
capacity and is a multiple of the alignment unit. -/
theorem arena_committed_invariant (L : Layout) (capacity : Nat) (ops : List ArenaOp) :
    (Arena.after L capacity ops).committed ≤ (Arena.after L capacity ops).capacity ∧
      (Arena.after L capacity ops).committed % L.align_bytes = 0 := by
  have h := arena_foldl_keeps L ops (Arena.empty capacity)
    ⟨le_refl _, Nat.zero_le _, Nat.zero_mod _, Nat.zero_mod _⟩
  exact ⟨le_trans h.1 h.2.1, h.2.2.2⟩

/-! ## Invariants of a run of the parser -/

theorem pushed_append (xs ys : List Effect) : pushed (xs ++ ys) = pushed xs ++ pushed ys := by
  induction xs with
  | nil => rfl
  | cons e rest ih => cases e <;> simp [pushed, ih]

theorem header_first_push (xs : List Effect) (b : Arena) (hne : xs ≠ [])
    (h : header_first xs = true) : header_first (xs ++ [Effect.push b]) = true := by
  cases xs with
  | nil => exact absurd rfl hne
  | cons e rest =>
    cases e with
    | set_header hd =>
      simp only [header_first, List.cons_append, List.all_append, List.all_cons, List.all_nil,
        Bool.and_true, Bool.and_eq_true] at *
      exact ⟨h, rfl⟩
    | push b1 => simp [header_first] at h

theorem consistent_init (cfg : Config) : (XMLParser.init cfg).consistent := by
  refine ⟨rfl, fun _ => rfl, fun _ => ⟨rfl, rfl⟩, ?_, ?_, ?_⟩
  · intro h; rcases h with h | h <;> simp [XMLParser.init] at h
  · intro _ b hb; simp [XMLParser.init, pushed] at hb
  · intro h; simp [XMLParser.init] at h

theorem consistent_fail (p : XMLParser) (e : ParseError) (h : p.consistent)
    (hs : p.state ≠ State.done) : (p.fail e).consistent := by
  obtain ⟨h1, _, _, _, h5, _⟩ := h
  refine ⟨h1, ?_, ?_, ?_, fun _ => h5 hs, ?_⟩ <;> simp [XMLParser.fail]

theorem consistent_update (p : XMLParser) (d : Nat) (e : Option Entity) (b : Arena)
    (h : p.consistent) (hd : p.state = State.idle → d = 0)
    (he : p.state = State.idle ∨ p.state = State.reading_header → e = none) :
    XMLParser.consistent { p with depth := d, entity := e, buffer := b } := by
  obtain ⟨h1, _, h3, h4, h5, h6⟩ := h
  exact ⟨h1, hd, fun hs => ⟨(h3 hs).1, he hs⟩, h4, h5, h6⟩

theorem consistent_start_root (cfg : Config) (p : XMLParser) (attrs : List (String × String))
    (h : p.consistent) (hs : p.state = State.idle) : (p.start_root cfg attrs).consistent := by
  have hnd : p.state ≠ State.done := by rw [hs]; simp
  unfold XMLParser.start_root
  split
  · exact consistent_fail p _ h hnd
  · split
    · obtain ⟨h1, _, h3, _, h5, _⟩ := h
      have h3 := h3 (Or.inl hs)
      refine ⟨h1, ?_, fun _ => h3, ?_, ?_, ?_⟩
      · intro hc; simp at hc
      · intro hc; rcases hc with hc | hc <;> simp at hc
      · intro _ b hb
        simp only [h3.1, pushed] at hb
        exact absurd hb (List.not_mem_nil b)
      · intro hc; simp at hc
    · exact consistent_fail p _ h hnd

theorem header_is_done_body (p : XMLParser)
    (hs : p.state = State.reading_header ∨ p.state = State.reading_body) :
    p.header_is_done.state = State.reading_body ∧ p.header_is_done.depth = p.depth ∧
      p.header_is_done.entity = p.entity ∧ p.header_is_done.buffer = p.buffer ∧
      p.header_is_done.header = p.header := by
  unfold XMLParser.header_is_done
  rcases hs with hs | hs
  · rw [hs]; exact ⟨rfl, rfl, rfl, rfl, rfl⟩
  · rw [hs]; exact ⟨hs, rfl, rfl, rfl, rfl⟩

theorem consistent_header_is_done (p : XMLParser) (h : p.consistent)
    (hs : p.state = State.reading_header ∨ p.state = State.reading_body) :
    p.header_is_done.consistent := by
  unfold XMLParser.header_is_done
  rcases hs with hs | hs
  · rw [hs]
    obtain ⟨_, _, h3, _, _, _⟩ := h
    have h3 := h3 (Or.inr hs)
    simp only [h3.1, List.nil_append]
    refine ⟨rfl, ?_, ?_, ?_, ?_, ?_⟩
    · intro hc; simp at hc
    · intro hc; rcases hc with hc | hc <;> simp at hc
    · intro _; simp
    · intro _ b hb; simp [pushed] at hb
    · intro hc; simp at hc
  · rw [hs]
    exact h

theorem consistent_flush (cfg : Config) (p : XMLParser) (h : p.consistent)
    (hs : p.state = State.reading_body) (hb : 0 < p.buffer.committed) :
    (p.flush cfg).consistent := by
  obtain ⟨h1, _, _, h4, h5, _⟩ := h
  have hne := h4 (Or.inl hs)
  have hnd : p.state ≠ State.done := by rw [hs]; simp
  unfold XMLParser.flush
  refine ⟨header_first_push _ _ hne h1, ?_, ?_, ?_, ?_, ?_⟩
  · intro hc; simp only [hs] at hc; simp at hc
  · intro hc; simp only [hs] at hc; rcases hc with hc | hc <;> simp at hc
  · intro _; simp
  · intro _ b hmem
    simp only [pushed_append, pushed, List.mem_append, List.mem_singleton] at hmem
    rcases hmem with hmem | hmem
    · exact h5 hnd b hmem
    · rw [hmem]; exact hb
  · intro hc; simp only [hs] at hc; simp at hc

theorem flush_state (cfg : Config) (p : XMLParser) :
    (p.flush cfg).state = p.state ∧ (p.flush cfg).depth = p.depth ∧
      (p.flush cfg).entity = p.entity :=
  ⟨rfl, rfl, rfl⟩

theorem consistent_start_element (cfg : Config) (p : XMLParser) (line column : Nat)
    (name : String) (attrs : List (String × String)) (h : p.consistent)
    (hs : p.state = State.idle ∨ p.state = State.reading_header ∨
      p.state = State.reading_body) :
    (p.start_element cfg line column name attrs).consistent := by
  have hnd : p.state ≠ State.done := by
    rcases hs with hs | hs | hs <;> rw [hs] <;> simp
  have h2 := h.2.1
  have h3 := h.2.2.1
  unfold XMLParser.start_element
  split
  · split
    · rename_i hst
      exact consistent_start_root cfg p attrs h hst
    · exact consistent_fail p _ h hnd
  · rename_i hd
    have hni : p.state ≠ State.idle := fun hc => by rw [h2 hc] at hd; simp at hd
    have hs2 : p.state = State.reading_header ∨ p.state = State.reading_body := by
      rcases hs with hs | hs | hs
      · exact absurd hs hni
      · exact Or.inl hs
      · exact Or.inr hs
    split
    · have hb := header_is_done_body p hs2
      exact consistent_update p.header_is_done 2 _ p.header_is_done.buffer
        (consistent_header_is_done p h hs2)
        (fun hc => by rw [hb.1] at hc; simp at hc)
        (fun hc => by rw [hb.1] at hc; rcases hc with hc | hc <;> simp at hc)
    · exact consistent_update p 2 p.entity p.buffer h (fun hc => absurd hc hni)
        (fun hc => (h3 hc).2)
  · rename_i d hd
    have hni : p.state ≠ State.idle := fun hc => by rw [h2 hc] at hd; simp at hd
    exact consistent_update p (d + 3) _ p.buffer h (fun hc => absurd hc hni)
      (fun hc => by rw [(h3 hc).2]; rfl)

theorem consistent_add_entity (cfg : Config) (p : XMLParser) (e : Entity) (h : p.consistent)
    (hs : p.state = State.reading_body) :
    (p.add_entity cfg e).consistent ∧ (p.add_entity cfg e).state = State.reading_body := by
  have hu := consistent_update p p.depth p.entity
    (p.buffer.append_item cfg.layout e.type (decimal_id ((e.attrs.lookup "id").getD ""))
      (cfg.payload_bytes e)).commit h
    (fun hc => by rw [hs] at hc; simp at hc)
    (fun hc => by rw [hs] at hc; rcases hc with hc | hc <;> simp at hc)
  have hpos : 0 < (p.buffer.append_item cfg.layout e.type
      (decimal_id ((e.attrs.lookup "id").getD "")) (cfg.payload_bytes e)).commit.committed := by
    simp only [Arena.commit, Arena.append_item]
    have := record_size_pos cfg.layout (cfg.payload_bytes e)
    omega
  unfold XMLParser.add_entity
  simp only
  split
  · exact ⟨consistent_flush cfg _ hu hs hpos, hs⟩
  · exact ⟨hu, hs⟩

theorem consistent_end_element (cfg : Config) (p : XMLParser) (line column : Nat)
    (h : p.consistent)
    (hs : p.state = State.idle ∨ p.state = State.reading_header ∨
      p.state = State.reading_body) :
    (p.end_element cfg line column).consistent := by
  have hnd : p.state ≠ State.done := by
    rcases hs with hs | hs | hs <;> rw [hs] <;> simp
  have h2 := h.2.1
  have h3 := h.2.2.1
  unfold XMLParser.end_element
  split
  · exact consistent_fail p _ h hnd
  · exact consistent_update p 0 p.entity p.buffer h (fun _ => rfl) (fun hc => (h3 hc).2)
  · rename_i hd
    have hni : p.state ≠ State.idle := fun hc => by rw [h2 hc] at hd; simp at hd
    split
    · rename_i e he
      have hb : p.state = State.reading_body := by
        rcases hs with hs | hs | hs
        · exact absurd hs hni
        · have := (h3 (Or.inr hs)).2
          rw [he] at this
          simp at this
        · exact hs
      have ha := consistent_add_entity cfg p e h hb
      exact consistent_update (p.add_entity cfg e) 1 none (p.add_entity cfg e).buffer ha.1
        (fun hc => by rw [ha.2] at hc; simp at hc) (fun _ => rfl)
    · exact consistent_update p 1 p.entity p.buffer h (fun hc => absurd hc hni)
        (fun hc => (h3 hc).2)
  · rename_i d hd
    have hni : p.state ≠ State.idle := fun hc => by rw [h2 hc] at hd; simp at hd
    exact consistent_update p (d + 2) p.entity p.buffer h (fun hc => absurd hc hni)
      (fun hc => (h3 hc).2)

theorem consistent_finish (cfg : Config) (p : XMLParser) (h : p.consistent)
    (hs : p.state = State.reading_header ∨ p.state = State.reading_body) :
    XMLParser.consistent
      { (if 0 < p.header_is_done.buffer.committed then p.header_is_done.flush cfg
          else p.header_is_done) with
        state := State.done
        effects := (if 0 < p.header_is_done.buffer.committed then p.header_is_done.flush cfg
          else p.header_is_done).effects ++ [Effect.push (Arena.empty 0)] } := by
  have hq := consistent_header_is_done p h hs
  have hqs := (header_is_done_body p hs).1
  have hr : (if 0 < p.header_is_done.buffer.committed then p.header_is_done.flush cfg
      else p.header_is_done).consistent ∧
      (if 0 < p.header_is_done.buffer.committed then p.header_is_done.flush cfg
        else p.header_is_done).state = State.reading_body := by
    split
    · rename_i hpos
      exact ⟨consistent_flush cfg _ hq hqs hpos, hqs⟩
    · exact ⟨hq, hqs⟩
  obtain ⟨⟨h1, _, _, h4, h5, _⟩, hrs⟩ := hr
  have hnd : (if 0 < p.header_is_done.buffer.committed then p.header_is_done.flush cfg
      else p.header_is_done).state ≠ State.done := by rw [hrs]; simp
  refine ⟨header_first_push _ _ (h4 (Or.inl hrs)) h1, ?_, ?_, ?_, ?_, ?_⟩
  · intro hc; simp at hc
  · intro hc; rcases hc with hc | hc <;> simp at hc
  · intro _; simp
  · intro hc; simp at hc
  · intro _
    exact ⟨_, by simp only [pushed_append, pushed], h5 hnd⟩

theorem consistent_end_of_input (cfg : Config) (p : XMLParser) (line column : Nat)
    (h : p.consistent)
    (hs : p.state = State.idle ∨ p.state = State.reading_header ∨
      p.state = State.reading_body) :
    (p.end_of_input cfg line column).consistent := by
  have hnd : p.state ≠ State.done := by
    rcases hs with hs | hs | hs <;> rw [hs] <;> simp
  unfold XMLParser.end_of_input
  split
  · rename_i hst
    exact consistent_finish cfg p h (Or.inl hst)
  · rename_i hst
    exact consistent_finish cfg p h (Or.inr hst)
  · exact consistent_fail p _ h hnd

theorem consistent_handle (cfg : Config) (p : XMLParser) (t : Token) (h : p.consistent) :
    (XMLParser.handle cfg p t).consistent := by
  unfold XMLParser.handle
  split
  · exact h
  · exact h
  · rename_i he hd
    have hs : p.state = State.idle ∨ p.state = State.reading_header ∨
        p.state = State.reading_body := by
      cases hst : p.state with
      | idle => exact Or.inl rfl
      | reading_header => exact Or.inr (Or.inl rfl)
      | reading_body => exact Or.inr (Or.inr rfl)
      | done => exact absurd hst hd
      | error e => exact absurd hst (he e)
    have hnd : p.state ≠ State.done := hd
    cases t with
    | start_element line column name attrs =>
      exact consistent_start_element cfg p line column name attrs h hs
    | end_element line column name => exact consistent_end_element cfg p line column h hs
    | malformed line column => exact consistent_fail p _ h hnd
    | end_of_input line column => exact consistent_end_of_input cfg p line column h hs

theorem consistent_foldl (cfg : Config) (ts : List Token) (p : XMLParser) (h : p.consistent) :
    (ts.foldl (XMLParser.handle cfg) p).consistent := by
  induction ts generalizing p with
  | nil => exact h
  | cons t rest ih =>
    rw [List.foldl_cons]
    exact ih _ (consistent_handle cfg p t h)

theorem consistent_run (cfg : Config) (ts : List Token) : (XMLParser.run cfg ts).consistent :=
  consistent_foldl cfg ts _ (consistent_init cfg)

theorem header_first_order (effs : List Effect) (h : header_first effs = true) :
    header_once_and_first effs := by
  cases effs with
  | nil =>
    refine ⟨by simp, ?_⟩
    intro pre b post hc
    simp at hc
  | cons e rest =>
    cases e with
    | push b1 => simp [header_first] at h
    | set_header hd =>
      simp only [header_first, List.all_eq_true] at h
      constructor
      · have hnil : rest.filter Effect.is_set_header = [] := by
          rw [List.filter_eq_nil_iff]
          intro x hx
          have := h x hx
          cases x <;> simp [Effect.is_push, Effect.is_set_header] at *
        simp [List.filter_cons, Effect.is_set_header, hnil]
      · intro pre b post hc
        cases pre with
        | nil => simp at hc
        | cons x pre1 =>
          simp only [List.cons_append, List.cons.injEq] at hc
          exact ⟨hd, by rw [← hc.1]; exact List.mem_cons_self _ _⟩

theorem parse_run (T : Tokenizer) (cfg : Config) (chunks : List String) (p : XMLParser)
    (hp : XMLParser.parse T cfg chunks = some p) : ∃ tokens, p = XMLParser.run cfg tokens := by
  unfold XMLParser.parse at hp
  cases hin : read_input chunks with
  | none => rw [hin] at hp; simp at hp
  | some text =>
    rw [hin, Option.map_some', Option.some.injEq] at hp
    exact ⟨_, hp.symm⟩

/-- C12: in every run of the parser, over any sequence of tokens and so on any
input channel, the Header cell is written at most once, and every Buffer pushed
is preceded by the write to the Header cell. -/
theorem header_once_before_buffers (cfg : Config) :
    (∀ tokens, header_once_and_first (XMLParser.run cfg tokens).effects) ∧
      ∀ T chunks p, XMLParser.parse T cfg chunks = some p → header_once_and_first p.effects := by
  have key : ∀ tokens, header_once_and_first (XMLParser.run cfg tokens).effects :=
    fun tokens => header_first_order _ (consistent_run cfg tokens).1
  refine ⟨key, ?_⟩
  intro T chunks p hp
  obtain ⟨tokens, rfl⟩ := parse_run T cfg chunks p hp
  exact key tokens

theorem header_once_before_buffers_witness :
    header_once_and_first (XMLParser.run test_config
      (tokenize xml_tokenizer "<osm version='0.6'><node id='7'/></osm>".data)).effects :=
  (header_once_before_buffers test_config).1
    (tokenize xml_tokenizer "<osm version='0.6'><node id='7'/></osm>".data)

/-- C13: on every input on which the parse succeeds (it reaches the state `Done`),
the Buffers pushed are zero or more non-empty Buffers followed by exactly one
empty Buffer, which is the last Buffer pushed. -/
theorem buffers_end_with_sentinel (T : Tokenizer) (cfg : Config) (chunks : List String)
    (p : XMLParser) (hp : XMLParser.parse T cfg chunks = some p)
    (hdone : p.state = State.done) : buffers_then_sentinel (pushed p.effects) := by
  obtain ⟨tokens, rfl⟩ := parse_run T cfg chunks p hp
  obtain ⟨front, hfront, hpos⟩ := (consistent_run cfg tokens).2.2.2.2.2 hdone
  exact ⟨front, Arena.empty 0, hfront, hpos, rfl⟩

theorem buffers_end_with_sentinel_witness :
    buffers_then_sentinel (pushed (XMLParser.run test_config (tokenize xml_tokenizer
      "<osm version='0.6'><node id='7'/><node id='8'/></osm>".data)).effects) :=
  buffers_end_with_sentinel xml_tokenizer test_config
    ["<osm version='0.6'><node id='7'/>", "<node id='8'/></osm>", ""]
    (XMLParser.run test_config (tokenize xml_tokenizer
      "<osm version='0.6'><node id='7'/><node id='8'/></osm>".data))
    rfl (by decide)

/-! ## Node elements end up in the first Buffer -/

theorem sub_elements_append (xs ys : List Token) :
    sub_elements (xs ++ ys) = sub_elements xs ++ sub_elements ys := by
  induction xs with
  | nil => rfl
  | cons t rest ih => cases t <;> simp [sub_elements, ih]

theorem foldl_handle_nested_entity (cfg : Config) (inner : List Token) (h : WellNested inner) :
    ∀ (d : Nat) (e : Entity) (header : Header) (buffer : Arena) (effects : List Effect),
      inner.foldl (XMLParser.handle cfg)
          { state := State.reading_body, depth := d + 2, entity := some e, header := header,
            buffer := buffer, effects := effects } =
        { state := State.reading_body, depth := d + 2,
          entity := some { e with children := e.children ++ sub_elements inner },
          header := header, buffer := buffer, effects := effects } := by
  induction h with
  | nil => intro d e header buffer effects; simp [sub_elements]
  | element l c name attrs l1 c1 name1 inner rest _ _ ih1 ih2 =>
    intro d e header buffer effects
    rw [List.foldl_cons, List.foldl_append, List.foldl_cons]
    have h1 : XMLParser.handle cfg
        { state := State.reading_body, depth := d + 2, entity := some e, header := header,
          buffer := buffer, effects := effects } (Token.start_element l c name attrs) =
        { state := State.reading_body, depth := d + 1 + 2,
          entity := some { e with children := e.children ++ [(name, attrs)] },
          header := header, buffer := buffer, effects := effects } := rfl
    rw [h1, ih1]
    have h2 : ∀ e1 : Entity, XMLParser.handle cfg
        { state := State.reading_body, depth := d + 1 + 2, entity := some e1, header := header,
          buffer := buffer, effects := effects } (Token.end_element l1 c1 name1) =
        { state := State.reading_body, depth := d + 2, entity := some e1,
          header := header, buffer := buffer, effects := effects } := fun _ => rfl
    rw [h2, ih2]
    simp [sub_elements, sub_elements_append, List.append_assoc]

theorem handle_start_node (cfg : Config) (hfilter : cfg.read_types item_type.node = true)
    (p : XMLParser) (l c : Nat) (attrs : List (String × String)) (hd : p.depth = 1)
    (hs : p.state = State.reading_header ∨ p.state = State.reading_body) :
    XMLParser.handle cfg p (Token.start_element l c "node" attrs) =
      { state := State.reading_body, depth := 0 + 2,
        entity := some { type := item_type.node, attrs := attrs, children := [] },
        header := p.header, buffer := p.buffer, effects := p.header_is_done.effects } := by
  obtain ⟨state, depth, entity, header, buffer, effects⟩ := p
  simp only at hd hs
  subst hd
  have hn : entity_type "node" = some item_type.node := by decide
  rcases hs with hs | hs <;> subst hs <;>
    simp only [XMLParser.handle, XMLParser.start_element, hn, hfilter, if_true,
      XMLParser.header_is_done]

theorem handle_end_node (cfg : Config) (e : Entity) (header : Header) (buffer : Arena)
    (effects : List Effect)
    (hfit : buffer.written + cfg.record_size e < cfg.flush_threshold) :
    XMLParser.handle cfg
        { state := State.reading_body, depth := 0 + 2, entity := some e, header := header,
          buffer := buffer, effects := effects } (Token.end_element l1 c1 name1) =
      { state := State.reading_body, depth := 1, entity := none, header := header,
        buffer := cfg.add_record buffer e, effects := effects } := by
  have hc : ¬ cfg.flush_threshold ≤ (cfg.add_record buffer e).committed := by
    simp only [Config.add_record, Arena.commit, Arena.append_item]
    unfold Config.record_size at hfit
    omega
  simp only [XMLParser.handle, XMLParser.end_element, XMLParser.add_entity]
  unfold Config.add_record at hc
  rw [if_neg hc]
  rfl

theorem add_record_written (cfg : Config) (b : Arena) (e : Entity) :
    (cfg.add_record b e).written = b.written + cfg.record_size e := rfl

theorem foldl_handle_nodes (cfg : Config) (hfilter : cfg.read_types item_type.node = true)
    (es : List Entity) (body : List Token) (h : Nodes es body) :
    ∀ (p : XMLParser), p.depth = 1 → p.entity = none →
      (p.state = State.reading_header ∨ p.state = State.reading_body) →
      p.buffer.written + (es.map cfg.record_size).sum < cfg.flush_threshold →
      body.foldl (XMLParser.handle cfg) p = p.after_entities cfg es := by
  induction h with
  | nil => intro p _ _ _ _; rfl
  | other l c name attrs l1 c1 name1 inner rest es hname hinner _ ih =>
    intro p hd he hs hfit
    have hsplit : Token.start_element l c name attrs ::
        (inner ++ Token.end_element l1 c1 name1 :: rest) =
        (Token.start_element l c name attrs :: (inner ++ Token.end_element l1 c1 name1 :: []))
          ++ rest := by simp
    rw [hsplit, List.foldl_append,
      foldl_handle_no_entities cfg _
        (NoEntities.element l c name attrs l1 c1 name1 inner [] hname hinner NoEntities.nil)
        p hd he hs]
    exact ih p hd he hs hfit
  | node l c attrs l1 c1 name1 inner rest es hinner _ ih =>
    intro p hd he hs hfit
    simp only [List.map_cons, List.sum_cons] at hfit
    rw [List.foldl_cons, List.foldl_append, List.foldl_cons,
      handle_start_node cfg hfilter p l c attrs hd hs,
      foldl_handle_nested_entity cfg inner hinner, handle_end_node]
    · simp only [List.nil_append]
      rw [ih _ rfl rfl (Or.inr rfl) (by rw [add_record_written]; omega)]
      cases es with
      | nil => rfl
      | cons e1 rest1 => rfl
    · simp only [List.nil_append]
      omega

theorem foldl_add_record (cfg : Config) (es : List Entity) (a : Arena) :
    (es.foldl cfg.add_record a).written = a.written + (es.map cfg.record_size).sum ∧
      (es.foldl cfg.add_record a).records = a.records ++ es.map cfg.record_of ∧
      (es ≠ [] →
        (es.foldl cfg.add_record a).committed = a.written + (es.map cfg.record_size).sum) := by
  induction es generalizing a with
  | nil => simp
  | cons e rest ih =>
    obtain ⟨h1, h2, h3⟩ := ih (cfg.add_record a e)
    have hw : (cfg.add_record a e).written = a.written + cfg.record_size e := rfl
    have hr : (cfg.add_record a e).records = a.records ++ [cfg.record_of e] := rfl
    have hc : (cfg.add_record a e).committed = a.written + cfg.record_size e := rfl
    simp only [List.foldl_cons, List.map_cons, List.sum_cons]
    refine ⟨by rw [h1, hw]; omega, by rw [h2, hr]; simp, fun _ => ?_⟩
    cases rest with
    | nil => simp [hc]
    | cons e1 rest1 => rw [h3 (by simp), hw]; omega

theorem records_within_all (rs : List Record) :
    records_within (rs.map Record.byte_size).sum rs = rs := by
  induction rs with
  | nil => rfl
  | cons r rest ih =>
    simp only [List.map_cons, List.sum_cons, records_within]
    rw [if_pos (Nat.le_add_right _ _), Nat.add_sub_cancel_left, ih]

theorem map_record_of_size (cfg : Config) (es : List Entity) :
    (es.map cfg.record_of).map Record.byte_size = es.map cfg.record_size := by
  rw [List.map_map]
  rfl

theorem digit_char_toNat (d : Nat) (h : d < 10) : (digit_char d).toNat = 48 + d := by
  interval_cases d <;> rfl

theorem digit_char_isDigit (d : Nat) (h : d < 10) : (digit_char d).isDigit = true := by
  interval_cases d <;> rfl

theorem digits_rev_mem (fuel n : Nat) (c : Char) (h : c ∈ digits_rev fuel n) :
    ∃ d, d < 10 ∧ c = digit_char d := by
  induction fuel generalizing n with
  | zero => simp [digits_rev] at h
  | succ k ih =>
    unfold digits_rev at h
    split at h
    · rename_i hn
      rw [List.mem_singleton] at h
      exact ⟨n, hn, h⟩
    · rcases List.mem_cons.mp h with h | h
      · exact ⟨n % 10, Nat.mod_lt _ (by decide), h⟩
      · exact ih _ h

theorem digits_rev_value (fuel n : Nat) (h : n < fuel) :
    (digits_rev fuel n).foldr (fun c m => 10 * m + (c.toNat - 48)) 0 = n := by
  induction fuel generalizing n with
  | zero => omega
  | succ k ih =>
    unfold digits_rev
    split
    · rename_i hn
      simp only [List.foldr_cons, List.foldr_nil, digit_char_toNat n hn]
      omega
    · rename_i hn
      have hlt : n / 10 < k := by omega
      simp only [List.foldr_cons, ih _ hlt, digit_char_toNat _ (Nat.mod_lt n (by decide))]
      omega

theorem decimal_digits_value (n : Nat) : digits_value (decimal_digits n) = n := by
  unfold digits_value decimal_digits
  rw [List.foldl_reverse]
  exact digits_rev_value (n + 1) n (Nat.lt_succ_self n)

theorem decimal_digits_cons (n : Nat) :
    ∃ c cs, decimal_digits n = c :: cs ∧ c.toNat ≠ 45 := by
  cases hds : decimal_digits n with
  | nil =>
    unfold decimal_digits digits_rev at hds
    split at hds <;> simp at hds
  | cons c cs =>
    refine ⟨c, cs, rfl, ?_⟩
    have hmem : c ∈ digits_rev (n + 1) n := by
      have : c ∈ decimal_digits n := by rw [hds]; exact List.mem_cons_self _ _
      unfold decimal_digits at this
      exact List.mem_reverse.mp this
    obtain ⟨d, hd, rfl⟩ := digits_rev_mem _ _ _ hmem
    rw [digit_char_toNat d hd]
    omega

theorem decimal_digits_take (n : Nat) :
    (decimal_digits n).takeWhile Char.isDigit = decimal_digits n := by
  rw [List.takeWhile_eq_self_iff]
  intro c hc
  unfold decimal_digits at hc
  obtain ⟨d, hd, rfl⟩ := digits_rev_mem _ _ _ (List.mem_reverse.mp hc)
  exact digit_char_isDigit d hd

/-- Reading the decimal numeral of an identifier gives the identifier back. -/
theorem decimal_id_text (n : Int) (h : is_object_id n) : decimal_id (decimal_text n) = n := by
  unfold decimal_id decimal_text
  rcases lt_or_le n 0 with hn | hn
  · rw [if_pos hn]
    have h45 : (Char.ofNat 45).toNat = 45 := rfl
    simp only [h45, if_true, decimal_digits_take, decimal_digits_value]
    rw [to_int64_of_object_id _ (by unfold is_object_id at *; omega)]
    omega
  · rw [if_neg (not_lt.mpr hn)]
    obtain ⟨c, cs, hcs, hc⟩ := decimal_digits_cons n.natAbs
    have htake := decimal_digits_take n.natAbs
    have hval := decimal_digits_value n.natAbs
    rw [hcs] at htake hval
    simp only [hcs, if_neg hc, htake, hval]
    rw [to_int64_of_object_id _ (by unfold is_object_id at *; omega)]
    omega

theorem nodes_type (es : List Entity) (body : List Token) (h : Nodes es body) :
    ∀ e ∈ es, e.type = item_type.node := by
  induction h with
  | nil => intro e he; simp at he
  | other _ _ _ _ _ _ _ _ _ _ _ _ _ ih => exact ih
  | node _ _ _ _ _ _ _ _ _ _ _ ih =>
    intro e he
    rcases List.mem_cons.mp he with he | he
    · rw [he]
    · exact ih e he

theorem first_buffer_of_nodes (cfg : Config) (capacity : Nat) (first : Entity)
    (others : List Entity) :
    0 < ((first :: others).foldl cfg.add_record (Arena.empty capacity)).committed ∧
      ((first :: others).foldl cfg.add_record (Arena.empty capacity)).items =
        (first :: others).map cfg.record_of := by
  obtain ⟨_, h2, h3⟩ := foldl_add_record cfg (first :: others) (Arena.empty capacity)
  have h3 := h3 (by simp)
  have hpos : 0 < cfg.record_size first := record_size_pos cfg.layout (cfg.payload_bytes first)
  constructor
  · rw [h3]
    simp only [List.map_cons, List.sum_cons]
    omega
  · unfold Arena.items
    rw [h3, h2]
    simp only [Arena.empty, Nat.zero_add, List.nil_append]
    rw [← map_record_of_size]
    exact records_within_all _

/-- C11: a well-formed document with an accepted version that holds `N ≥ 1` node
elements and no other entity, the records of which stay below the threshold
together, with a filter that accepts nodes: the parse succeeds; the first Buffer
pushed has committed size greater than zero (the sentinel follows it);
iterating it gives exactly `N` items; the first item has type node and its
identifier is the identifier `n` that the `id` attribute of the first node
element states in the document. -/
theorem nodes_in_first_buffer (T : Tokenizer) (cfg : Config) (chunks : List String)
    (text : List Char) (l c : Nat) (name : String) (attrs : List (String × String))
    (body : List Token) (l1 c1 : Nat) (name1 : String) (l2 c2 : Nat) (v : String)
    (first : Entity) (others : List Entity) (n : Int)
    (hin : read_input chunks = some text)
    (htok : tokenize T text = Token.start_element l c name attrs ::
      (body ++ [Token.end_element l1 c1 name1, Token.end_of_input l2 c2]))
    (hbody : Nodes (first :: others) body)
    (hv : attrs.lookup "version" = some v) (hacc : v ∈ cfg.accepted_versions)
    (hfilter : cfg.read_types item_type.node = true)
    (hfit : ((first :: others).map cfg.record_size).sum < cfg.flush_threshold)
    (hn : is_object_id n) (hid : first.attrs.lookup "id" = some (decimal_text n)) :
    ∃ p b, XMLParser.parse T cfg chunks = some p ∧ p.state = State.done ∧
      pushed p.effects = [b, Arena.empty 0] ∧ 0 < b.committed ∧
      b.items.length = (first :: others).length ∧
      ∃ r rest, b.items = r :: rest ∧ r.type = item_type.node ∧
        r.id = n := by
  have hs : (XMLParser.init cfg).start_root cfg attrs =
      { state := State.reading_header, depth := 1, entity := none,
        header := { options := attrs, version := v },
        buffer := Arena.empty cfg.buffer_capacity, effects := [] } := by
    unfold XMLParser.start_root
    rw [hv]
    simp only [if_pos hacc]
    rfl
  obtain ⟨hpos, hitems⟩ := first_buffer_of_nodes cfg cfg.buffer_capacity first others
  have hnode : first.type = item_type.node :=
    nodes_type _ _ hbody first (List.mem_cons_self _ _)
  have hrun : XMLParser.run cfg (Token.start_element l c name attrs ::
      (body ++ [Token.end_element l1 c1 name1, Token.end_of_input l2 c2])) =
      { state := State.done, depth := 0, entity := none,
        header := { options := attrs, version := v },
        buffer := Arena.empty cfg.buffer_capacity,
        effects := [Effect.set_header { options := attrs, version := v },
          Effect.push ((first :: others).foldl cfg.add_record (Arena.empty cfg.buffer_capacity)),
          Effect.push (Arena.empty 0)] } := by
    rw [run_root, hs, List.foldl_append,
      foldl_handle_nodes cfg hfilter _ body hbody _ rfl rfl (Or.inl rfl)
        (by simpa [Arena.empty] using hfit)]
    have hpos1 : 0 < (others.foldl cfg.add_record
        (cfg.add_record (Arena.empty cfg.buffer_capacity) first)).committed := hpos
    simp only [List.foldl_cons, List.foldl_nil, XMLParser.handle, XMLParser.end_element,
      XMLParser.end_of_input, XMLParser.header_is_done, XMLParser.after_entities, if_pos hpos1,
      XMLParser.flush, List.nil_append, List.cons_append]
  have hp : XMLParser.parse T cfg chunks = some (XMLParser.run cfg (tokenize T text)) := by
    unfold XMLParser.parse
    rw [hin, Option.map_some']
  rw [htok, hrun] at hp
  refine ⟨_, _, hp, rfl, rfl, hpos, ?_, ?_⟩
  · rw [hitems, List.length_map]
  · refine ⟨cfg.record_of first, others.map cfg.record_of, by rw [hitems, List.map_cons],
      hnode, ?_⟩
    simp only [Config.record_of, hid, Option.getD_some]
    exact decimal_id_text n hn

theorem nodes_in_first_buffer_witness :
    ∃ p b, XMLParser.parse xml_tokenizer test_config
        ["<osm version='0.6' generator='testdata'>\n<node id='36966060'/>\n",
          "<node id='36966061'><tag k='a' v='b'/></node>\n<node id='36966062'/>\n</osm>\n",
          ""] = some p ∧
      p.state = State.done ∧ pushed p.effects = [b, Arena.empty 0] ∧ 0 < b.committed ∧
      b.items.length = 3 ∧
      ∃ r rest, b.items = r :: rest ∧ r.type = item_type.node ∧ r.id = 36966060 :=
  nodes_in_first_buffer xml_tokenizer test_config
    ["<osm version='0.6' generator='testdata'>\n<node id='36966060'/>\n",
      "<node id='36966061'><tag k='a' v='b'/></node>\n<node id='36966062'/>\n</osm>\n", ""]
    ("<osm version='0.6' generator='testdata'>\n<node id='36966060'/>\n" ++
      "<node id='36966061'><tag k='a' v='b'/></node>\n<node id='36966062'/>\n</osm>\n").data
    1 39 "osm" [("version", "0.6"), ("generator", "testdata")]
    [Token.start_element 2 20 "node" [("id", "36966060")], Token.end_element 2 20 "node",
      Token.start_element 3 19 "node" [("id", "36966061")],
      Token.start_element 3 37 "tag" [("k", "a"), ("v", "b")], Token.end_element 3 37 "tag",
      Token.end_element 3 44 "node",
      Token.start_element 4 20 "node" [("id", "36966062")], Token.end_element 4 20 "node"]
    5 5 "osm" 6 0 "0.6"
    { type := item_type.node, attrs := [("id", "36966060")], children := [] }
    [{ type := item_type.node, attrs := [("id", "36966061")],
        children := [("tag", [("k", "a"), ("v", "b")])] },
      { type := item_type.node, attrs := [("id", "36966062")], children := [] }]
    36966060 (by decide) (by decide)
    (Nodes.node 2 20 [("id", "36966060")] 2 20 "node" [] _ _ WellNested.nil
      (Nodes.node 3 19 [("id", "36966061")] 3 44 "node"
        [Token.start_element 3 37 "tag" [("k", "a"), ("v", "b")],
          Token.end_element 3 37 "tag"] _ _
        (WellNested.element 3 37 "tag" [("k", "a"), ("v", "b")] 3 37 "tag" [] []
          WellNested.nil WellNested.nil)
        (Nodes.node 4 20 [("id", "36966062")] 4 20 "node" [] [] [] WellNested.nil Nodes.nil)))
    (by decide) (by decide) rfl (by decide) (by decide) rfl

end osmium
